import Mathlib

/-!
Verification of the proteus protocol-engine core.

The development shallowly embeds the interpreter of `src/lang/interpreter.rs`
and the prototype cipher of `src/net/proto/upgen/crypto/prototype.rs`.
Components of the repository that are not among the provided source files
(the `Heap`, `Message`, format and `chacha::Cipher` modules of `src/lang`)
are modelled from the specification, and each such definition is marked
`Modelled from the spec:` in its documentation.  External crates
(chacha20poly1305, salsa20) enter as function parameters; the properties the
spec attributes to them appear as explicit hypotheses of the theorems.

Machine integers are modelled as `Nat`; `usize` casts and arithmetic reduce
modulo `2 ^ 64` (64-bit platform), and `isize::MAX` is `2 ^ 63 - 1`.
Rust panics are modelled by `Option.none` results.
-/

namespace Proteus

/-- Identifiers are interned strings with structural equality. -/
abbrev Ident := String

/-- Wrap-around modulus of `usize` on a 64-bit platform. -/
def U64 : Nat := 2 ^ 64

/-- Largest value representable in `isize` on a 64-bit platform. -/
def isizeMax : Nat := 2 ^ 63 - 1

/-! ### Heap

Modelled from the spec: `Heap<V>` (src/lang/mem.rs is not among the provided
sources) is a mapping `Identifier → V` with insert (overwrite permitted),
get (borrow) and remove (take) semantics. -/

/-- Heap is an association list; the most recent insertion for a key wins. -/
def Heap (V : Type) : Type := List (Ident × V)

instance (V : Type) [DecidableEq V] : DecidableEq (Heap V) :=
  inferInstanceAs (DecidableEq (List (Ident × V)))

/-- Heap with no entries. -/
def Heap.empty {V : Type} : Heap V := []

/-- Heap lookup: first entry whose key matches. -/
def Heap.get {V : Type} (h : Heap V) (k : Ident) : Option V :=
  match h with
  | [] => none
  | (k', v) :: rest => if k' = k then some v else Heap.get rest k

/-- Heap insertion; overwrites (shadows) any previous entry for the key. -/
def Heap.insert {V : Type} (h : Heap V) (k : Ident) (v : V) : Heap V :=
  (k, v) :: h

/-- Heap removal: returns the value and the heap without that key, or `none`
if the key is absent. -/
def Heap.remove {V : Type} (h : Heap V) (k : Ident) : Option (V × Heap V) :=
  match h.get k with
  | none => none
  | some v => some (v, h.filter (fun e => e.1 ≠ k))

/-! ### Format model

Modelled from the spec: src/lang/types.rs is not among the provided sources.
A format is an ordered field list; a field is a fixed-width primitive array
or a `DynamicArray(SizeOf(id))` whose byte length is resolved at
concretization time (spec section 4.2). -/

/-- Field type of an abstract format: a fixed byte width, or a dynamic array
sized by the field or blob named `id`. -/
inductive FieldKind : Type
  | fixed (len : Nat)
  | dynamic (sizeOfId : Ident)
deriving DecidableEq, Repr

/-- Field of an abstract format. -/
structure AField : Type where
  name : Ident
  kind : FieldKind
deriving DecidableEq, Repr

/-- Abstract format: named, ordered fields, possibly with dynamic sizes. -/
structure AbstractFormat : Type where
  name : Ident
  fields : List AField
deriving DecidableEq, Repr

/-- Field of a concrete format: every field has a known byte length. -/
structure CField : Type where
  name : Ident
  len : Nat
deriving DecidableEq, Repr

/-- Concrete format: named, ordered fields with resolved byte lengths. -/
structure ConcreteFormat : Type where
  name : Ident
  fields : List CField
deriving DecidableEq, Repr

/-- Modelled from the spec: `get_dynamic_arrays` returns the identifiers
whose sizes must be supplied for concretization, in field order. -/
def AbstractFormat.get_dynamic_arrays (f : AbstractFormat) : List Ident :=
  f.fields.filterMap (fun fl =>
    match fl.kind with
    | FieldKind.fixed _ => none
    | FieldKind.dynamic id => some id)

/-- Modelled from the spec: `concretize` replaces each dynamic array's
symbolic size with the supplied length. -/
def AbstractFormat.concretize (f : AbstractFormat) (sizes : List (Ident × Nat)) :
    ConcreteFormat :=
  { name := f.name
    fields := f.fields.map (fun fl =>
      match fl.kind with
      | FieldKind.fixed n => { name := fl.name, len := n }
      | FieldKind.dynamic id =>
          { name := fl.name
            len := ((sizes.find? (fun e => e.1 = id)).map (·.2)).getD 0 }) }

/-! ### Message

Modelled from the spec: src/lang/message.rs is not among the provided
sources.  A message is a contiguous byte buffer of the size given by its
concrete format, plus field name → (offset, length) addressing; numerics are
big-endian (spec section 3 and 4.2). -/

/-- Message: a concrete field list together with the flat byte buffer. -/
structure Message : Type where
  fields : List CField
  buf : List Nat
deriving DecidableEq, Repr

/-- Total byte size of a concrete format. -/
def ConcreteFormat.totalLen (f : ConcreteFormat) : Nat :=
  (f.fields.map (·.len)).sum

/-- Modelled from the spec: `Message::new` allocates a zeroed buffer of the
format's total size. -/
def Message.new (f : ConcreteFormat) : Message :=
  { fields := f.fields, buf := List.replicate f.totalLen 0 }

/-- Offset and length of the named field, walking fields left to right. -/
def fieldOffsetGo (acc : Nat) (id : Ident) : List CField → Option (Nat × Nat)
  | [] => none
  | fl :: rest =>
      if fl.name = id then some (acc, fl.len) else fieldOffsetGo (acc + fl.len) id rest

/-- Offset and length of the named field of a message. -/
def Message.fieldOffset (m : Message) (id : Ident) : Option (Nat × Nat) :=
  fieldOffsetGo 0 id m.fields

/-- Modelled from the spec: `get_field_bytes` returns the field's slice of
the buffer; an absent field is an error. -/
def Message.get_field_bytes (m : Message) (id : Ident) : Option (List Nat) :=
  (m.fieldOffset id).map (fun ol => ((m.buf.drop ol.1).take ol.2))

/-- Modelled from the spec: `set_field_bytes` copies the bytes into the
field's slice and requires the input length to equal the declared length. -/
def Message.set_field_bytes (m : Message) (id : Ident) (b : List Nat) :
    Option Message :=
  match m.fieldOffset id with
  | none => none
  | some (off, len) =>
      if b.length = len then
        some { m with buf := m.buf.take off ++ b ++ m.buf.drop (off + len) }
      else none

/-- Big-endian interpretation of a byte list. -/
def beBytesToNat (bs : List Nat) : Nat :=
  bs.foldl (fun acc b => acc * 256 + b) 0

/-- Big-endian encoding of `v` into exactly `w` bytes. -/
def natToBeBytes : Nat → Nat → List Nat
  | 0, _ => []
  | w + 1, v => natToBeBytes w (v / 256) ++ [v % 256]

/-- Modelled from the spec: `get_field_unsigned_numeric` reads 1, 2, 4 or 8
bytes big-endian into an unsigned value. -/
def Message.get_field_unsigned_numeric (m : Message) (id : Ident) : Option Nat :=
  match m.fieldOffset id with
  | none => none
  | some (off, len) =>
      if len = 1 ∨ len = 2 ∨ len = 4 ∨ len = 8 then
        some (beBytesToNat ((m.buf.drop off).take len))
      else none

/-- Modelled from the spec: `set_field_unsigned_numeric` writes `v`
big-endian into the declared width and fails if `v` does not fit. -/
def Message.set_field_unsigned_numeric (m : Message) (id : Ident) (v : Nat) :
    Option Message :=
  match m.fieldOffset id with
  | none => none
  | some (off, len) =>
      if (len = 1 ∨ len = 2 ∨ len = 4 ∨ len = 8) ∧ v < 256 ^ len then
        some { m with buf := m.buf.take off ++ natToBeBytes len v ++ m.buf.drop (off + len) }
      else none

/-- Modelled from the spec: `len_suffix` returns the number of bytes from
the start of the field through the end of the buffer. -/
def Message.len_suffix (m : Message) (id : Ident) : Option Nat :=
  (m.fieldOffset id).map (fun ol => m.buf.length - ol.1)

/-- Modelled from the spec: `into_inner` consumes the message and yields the
whole buffer. -/
def Message.into_inner (m : Message) : List Nat := m.buf

/-- Modelled from the spec: `into_inner_field` yields only the named field's
bytes. -/
def Message.into_inner_field (m : Message) (id : Ident) : Option (List Nat) :=
  m.get_field_bytes id

/-! ### Tasks and instructions

The `Instruction` enum and its argument records live in src/lang/task.rs,
which is not among the provided sources; their constructors and fields are
transcribed from their uses in src/lang/interpreter.rs. -/

/-- Role of this endpoint (src/lang/common.rs). -/
inductive Role : Type
  | client
  | server
deriving DecidableEq, Repr

/-- Length request of a `ReadNet` instruction: a literal half-open range, the
value stored under an identifier in the number heap, or that value minus a
constant. -/
inductive ReadNetLength : Type
  | range (lo hi : Nat)
  | identifier (id : Ident)
  | identifierMinus (id : Ident) (sub : Nat)
deriving DecidableEq, Repr

/-- Arguments of `ComputeLength`. -/
structure ComputeLengthArgs : Type where
  from_msg_heap_id : Ident
  from_field_id : Ident
  to_heap_id : Ident
deriving DecidableEq, Repr

/-- Arguments of `ConcretizeFormat`. -/
structure ConcretizeFormatArgs : Type where
  from_format : AbstractFormat
  to_heap_id : Ident
deriving DecidableEq, Repr

/-- Arguments of `CreateMessage`. -/
structure CreateMessageArgs : Type where
  from_format_heap_id : Ident
  to_heap_id : Ident
deriving DecidableEq, Repr

/-- Arguments of `DecryptField`. -/
structure DecryptFieldArgs : Type where
  from_msg_heap_id : Ident
  from_ciphertext_field_id : Ident
  from_mac_field_id : Ident
  to_plaintext_heap_id : Ident
deriving DecidableEq, Repr

/-- Arguments of `EncryptField`. -/
structure EncryptFieldArgs : Type where
  from_msg_heap_id : Ident
  from_field_id : Ident
  to_ciphertext_heap_id : Ident
  to_mac_heap_id : Ident
deriving DecidableEq, Repr

/-- Arguments of `GetArrayBytes`. -/
structure GetArrayBytesArgs : Type where
  from_msg_heap_id : Ident
  from_field_id : Ident
  to_heap_id : Ident
deriving DecidableEq, Repr

/-- Arguments of `GetNumericValue`. -/
structure GetNumericValueArgs : Type where
  from_msg_heap_id : Ident
  from_field_id : Ident
  to_heap_id : Ident
deriving DecidableEq, Repr

/-- Arguments of `InitFixedSharedKey`. -/
structure InitFixedSharedKeyArgs : Type where
  password : String
  role : Role
deriving DecidableEq, Repr

/-- Arguments of `ReadApp`: a literal half-open length range and the heap
address for the received bytes. -/
structure ReadAppArgs : Type where
  from_len_lo : Nat
  from_len_hi : Nat
  to_heap_id : Ident
deriving DecidableEq, Repr

/-- Arguments of `ReadNet`. -/
structure ReadNetArgs : Type where
  from_len : ReadNetLength
  to_heap_id : Ident
deriving DecidableEq, Repr

/-- Arguments of `SetArrayBytes`. -/
structure SetArrayBytesArgs : Type where
  from_heap_id : Ident
  to_msg_heap_id : Ident
  to_field_id : Ident
deriving DecidableEq, Repr

/-- Arguments of `SetNumericValue`. -/
structure SetNumericValueArgs : Type where
  from_heap_id : Ident
  to_msg_heap_id : Ident
  to_field_id : Ident
deriving DecidableEq, Repr

/-- Arguments of `WriteApp`. -/
structure WriteAppArgs : Type where
  from_msg_heap_id : Ident
  from_field_id : Ident
deriving DecidableEq, Repr

/-- Arguments of `WriteNet`. -/
structure WriteNetArgs : Type where
  from_msg_heap_id : Ident
deriving DecidableEq, Repr

/-- Instruction set of the interpreter, one constructor per arm of the match
in `Program::execute_next_instruction`. -/
inductive Instruction : Type
  | computeLength (args : ComputeLengthArgs)
  | concretizeFormat (args : ConcretizeFormatArgs)
  | createMessage (args : CreateMessageArgs)
  | decryptField (args : DecryptFieldArgs)
  | encryptField (args : EncryptFieldArgs)
  | genRandomBytes
  | getArrayBytes (args : GetArrayBytesArgs)
  | getNumericValue (args : GetNumericValueArgs)
  | initFixedSharedKey (args : InitFixedSharedKeyArgs)
  | readApp (args : ReadAppArgs)
  | readNet (args : ReadNetArgs)
  | setArrayBytes (args : SetArrayBytesArgs)
  | setNumericValue (args : SetNumericValueArgs)
  | writeApp (args : WriteAppArgs)
  | writeNet (args : WriteNetArgs)
deriving DecidableEq, Repr

/-- TaskID is an opaque handle; the default (zero) identifies the init task. -/
abbrev TaskID := Nat

/-- Task: an ordered instruction sequence with an identity. -/
structure Task : Type where
  ins : List Instruction
  id : TaskID
deriving DecidableEq, Repr

/-- Tasks handed out by the provider for one or both directions
(src/lang/task.rs `TaskSet` / `TaskPair`). -/
inductive TaskSet : Type
  | inTask (t : Task)
  | outTask (t : Task)
  | inAndOutTasks (in_task out_task : Task)
deriving DecidableEq, Repr

/-- Task provider interface (spec section 6): an init task plus successor
tasks derived from the last completed task's id. -/
structure TaskProvider : Type where
  get_init_task : Task
  get_next_tasks : TaskID → TaskSet

/-! ### Interpreter-side cipher

Modelled from the spec: src/crypto/chacha.rs is not among the provided
sources.  Per spec section 4.3 the cipher holds two deterministic nonce
generators (stream ciphers pulling a 12-byte nonce per message from seeds A
and B, mirrored between Sender and Receiver) and AEAD encrypt/decrypt with a
separate 16-byte MAC.  The stream-cipher keystream, the AEAD functions and
the KDF are external algorithms and enter as the `ExtFuns` parameters. -/

/-- Externally supplied algorithms: `ks key seed i` is byte `i` of the nonce
generator's keystream; `aeadEnc key nonce pt` returns (ciphertext, mac);
`aeadDec key nonce ct mac` returns the plaintext or `none` on
authentication failure; `kdf password salt` derives a 32-byte key. -/
structure ExtFuns : Type where
  ks : List Nat → List Nat → Nat → Nat
  aeadEnc : List Nat → List Nat → List Nat → List Nat × List Nat
  aeadDec : List Nat → List Nat → List Nat → List Nat → Option (List Nat)
  kdf : String → String → List Nat

/-- Sender/receiver role of a cipher instance. -/
inductive CipherKind : Type
  | sender
  | receiver
deriving DecidableEq, Repr

/-- Fixed 8-byte nonce seed A. -/
def NONCE_A : List Nat := List.replicate 8 0xAA

/-- Fixed 8-byte nonce seed B. -/
def NONCE_B : List Nat := List.replicate 8 0xBB

/-- Twelve keystream bytes starting at `pos`: the nonce pulled by
keystreaming a zero buffer. -/
def nonceFrom (ks : List Nat → List Nat → Nat → Nat) (key seed : List Nat)
    (pos : Nat) : List Nat :=
  (List.range 12).map (fun i => ks key seed (pos + i))

/-- Interpreter-side cipher state: shared key, the two nonce generators'
seeds and keystream positions. -/
structure ChachaCipher : Type where
  key : List Nat
  enc_seed : List Nat
  dec_seed : List Nat
  enc_pos : Nat
  dec_pos : Nat

/-- Modelled from the spec: the Sender seeds its send nonce generator with A
and its receive generator with B; the Receiver mirrors. -/
def ChachaCipher.new (key : List Nat) (kind : CipherKind) : ChachaCipher :=
  { key := key
    enc_seed := match kind with | CipherKind.sender => NONCE_A | CipherKind.receiver => NONCE_B
    dec_seed := match kind with | CipherKind.sender => NONCE_B | CipherKind.receiver => NONCE_A
    enc_pos := 0
    dec_pos := 0 }

/-- Modelled from the spec: encryption pulls one nonce from the send
generator and applies the AEAD, yielding (ciphertext, mac). -/
def ChachaCipher.encrypt (P : ExtFuns) (c : ChachaCipher) (pt : List Nat) :
    (List Nat × List Nat) × ChachaCipher :=
  (P.aeadEnc c.key (nonceFrom P.ks c.key c.enc_seed c.enc_pos) pt,
   { c with enc_pos := c.enc_pos + 12 })

/-- Modelled from the spec: decryption pulls one nonce from the receive
generator and applies the AEAD; authentication failure is fatal (`none`). -/
def ChachaCipher.decrypt (P : ExtFuns) (c : ChachaCipher) (ct mac : List Nat) :
    Option (List Nat) × ChachaCipher :=
  (P.aeadDec c.key (nonceFrom P.ks c.key c.dec_seed c.dec_pos) ct mac,
   { c with dec_pos := c.dec_pos + 12 })

/-! ### Interpreter state and network operations (src/lang/interpreter.rs) -/

/-- Outgoing (app→net) operation requested of the caller. -/
inductive NetOpOut : Type
  | recvApp (lo hi : Nat) (addr : Ident)
  | sendNet (bytes : List Nat)
  | close
  | error (msg : String)
deriving DecidableEq, Repr

/-- Incoming (net→app) operation requested of the caller. -/
inductive NetOpIn : Type
  | recvNet (lo hi : Nat) (addr : Ident)
  | sendApp (bytes : List Nat)
  | close
  | error (msg : String)
deriving DecidableEq, Repr

/-- Runtime instance of a task: the task, the next instruction index, and
the four typed heaps. -/
structure Program : Type where
  task : Task
  next_ins_index : Nat
  bytes_heap : Heap (List Nat)
  format_heap : Heap ConcreteFormat
  message_heap : Heap Message
  number_heap : Heap Nat

/-- Fresh program for a task: index 0, all four heaps empty
(`Program::new`). -/
def Program.new (t : Task) : Program :=
  { task := t
    next_ins_index := 0
    bytes_heap := Heap.empty
    format_heap := Heap.empty
    message_heap := Heap.empty
    number_heap := Heap.empty }

/-- Whether the program still has an instruction to run
(`Program::has_next_instruction`). -/
def Program.has_next_instruction (p : Program) : Bool :=
  p.next_ins_index < p.task.ins.length

/-- Interpreter state (`struct Interpreter`). -/
structure Interp : Type where
  prov : TaskProvider
  cipher : Option ChachaCipher
  next_netop_out : Option NetOpOut
  next_netop_in : Option NetOpIn
  current_prog_out : Option Program
  current_prog_in : Option Program
  last_task_id : TaskID
  wants_tasks : Bool

/-- Dynamic-length table built by the `ConcretizeFormat` arm: each listed
identifier is looked up in the byte heap and paired with its blob's length;
an absent identifier is a panic. -/
def dynSizes (h : Heap (List Nat)) : List Ident → Option (List (Ident × Nat))
  | [] => some []
  | id :: rest =>
      match h.get id with
      | none => none
      | some b => (dynSizes h rest).map (fun s => (id, b.length) :: s)

/-- Effect of one instruction, before the index increment; `none` is a Rust
panic.  Each arm mirrors the corresponding arm of
`Program::execute_next_instruction`. -/
def executeInsBody (P : ExtFuns) (prog : Program) (st : Interp) :
    Instruction → Option (Program × Interp)
  | Instruction.computeLength args =>
      match (prog.message_heap.get args.from_msg_heap_id) with
      | none => none
      | some msg =>
        match msg.len_suffix args.from_field_id with
        | none => none
        | some len =>
            some ({ prog with number_heap := prog.number_heap.insert args.to_heap_id len }, st)
  | Instruction.concretizeFormat args =>
      match dynSizes prog.bytes_heap args.from_format.get_dynamic_arrays with
      | none => none
      | some sizes =>
          let fh := prog.format_heap.insert args.to_heap_id (args.from_format.concretize sizes)
          some ({ prog with format_heap := fh }, st)
  | Instruction.createMessage args =>
      match prog.format_heap.remove args.from_format_heap_id with
      | none => none
      | some (cformat, fh) =>
          some ({ prog with
                    format_heap := fh
                    message_heap := prog.message_heap.insert args.to_heap_id (Message.new cformat) }, st)
  | Instruction.decryptField args =>
      match st.cipher with
      | none => none
      | some cipher =>
        match prog.message_heap.get args.from_msg_heap_id with
        | none => none
        | some msg =>
          match msg.get_field_bytes args.from_ciphertext_field_id with
          | none => none
          | some ciphertext =>
            match msg.get_field_bytes args.from_mac_field_id with
            | none => none
            | some mac =>
              if mac.length = 16 then
                match ChachaCipher.decrypt P cipher ciphertext mac with
                | (none, _) => none
                | (some plaintext, cipher') =>
                    let bh := prog.bytes_heap.insert args.to_plaintext_heap_id plaintext
                    some ({ prog with bytes_heap := bh }, { st with cipher := some cipher' })
              else none
  | Instruction.encryptField args =>
      match st.cipher with
      | none => none
      | some cipher =>
        match prog.message_heap.get args.from_msg_heap_id with
        | none => none
        | some msg =>
          match msg.get_field_bytes args.from_field_id with
          | none => none
          | some plaintext =>
            match ChachaCipher.encrypt P cipher plaintext with
            | ((ciphertext, mac), cipher') =>
                let bh :=
                  (prog.bytes_heap.insert args.to_ciphertext_heap_id ciphertext).insert
                    args.to_mac_heap_id mac
                some ({ prog with bytes_heap := bh }, { st with cipher := some cipher' })
  | Instruction.genRandomBytes => none
  | Instruction.getArrayBytes args =>
      match prog.message_heap.get args.from_msg_heap_id with
      | none => none
      | some msg =>
        match msg.get_field_bytes args.from_field_id with
        | none => none
        | some bytes =>
            some ({ prog with bytes_heap := prog.bytes_heap.insert args.to_heap_id bytes }, st)
  | Instruction.getNumericValue args =>
      match prog.message_heap.get args.from_msg_heap_id with
      | none => none
      | some msg =>
        match msg.get_field_unsigned_numeric args.from_field_id with
        | none => none
        | some num =>
            some ({ prog with number_heap := prog.number_heap.insert args.to_heap_id num }, st)
  | Instruction.initFixedSharedKey args =>
      let skey := P.kdf args.password "stupid stupid stupid"
      let kind := match args.role with
        | Role.client => CipherKind.sender
        | Role.server => CipherKind.receiver
      some (prog, { st with cipher := some (ChachaCipher.new skey kind) })
  | Instruction.readApp args =>
      let op := NetOpOut.recvApp args.from_len_lo args.from_len_hi args.to_heap_id
      some (prog, { st with next_netop_out := some op })
  | Instruction.readNet args =>
      match args.from_len with
      | ReadNetLength.identifier id =>
          match prog.number_heap.get id with
          | none => none
          | some num =>
              let val := num % U64
              let op := NetOpIn.recvNet val ((val + 1) % U64) args.to_heap_id
              some (prog, { st with next_netop_in := some op })
      | ReadNetLength.identifierMinus id sub =>
          match prog.number_heap.get id with
          | none => none
          | some num =>
              let val := (num % U64 + (U64 - sub % U64)) % U64
              let op := NetOpIn.recvNet val ((val + 1) % U64) args.to_heap_id
              some (prog, { st with next_netop_in := some op })
      | ReadNetLength.range lo hi =>
          let op := NetOpIn.recvNet lo hi args.to_heap_id
          some (prog, { st with next_netop_in := some op })
  | Instruction.setArrayBytes args =>
      match prog.bytes_heap.get args.from_heap_id with
      | none => none
      | some bytes =>
        match prog.message_heap.remove args.to_msg_heap_id with
        | none => none
        | some (msg, mh) =>
          match msg.set_field_bytes args.to_field_id bytes with
          | none => none
          | some msg' =>
              some ({ prog with message_heap := mh.insert args.to_msg_heap_id msg' }, st)
  | Instruction.setNumericValue args =>
      match prog.number_heap.get args.from_heap_id with
      | none => none
      | some val =>
        match prog.message_heap.remove args.to_msg_heap_id with
        | none => none
        | some (msg, mh) =>
          match msg.set_field_unsigned_numeric args.to_field_id val with
          | none => none
          | some msg' =>
              some ({ prog with message_heap := mh.insert args.to_msg_heap_id msg' }, st)
  | Instruction.writeApp args =>
      match prog.message_heap.remove args.from_msg_heap_id with
      | none => none
      | some (msg, mh) =>
        match msg.into_inner_field args.from_field_id with
        | none => none
        | some bytes =>
            some ({ prog with message_heap := mh },
                  { st with next_netop_in := some (NetOpIn.sendApp bytes) })
  | Instruction.writeNet args =>
      match prog.message_heap.remove args.from_msg_heap_id with
      | none => none
      | some (msg, mh) =>
          some ({ prog with message_heap := mh },
                { st with next_netop_out := some (NetOpOut.sendNet msg.into_inner) })

/-- One step of `Program::execute_next_instruction`: fetch the instruction at
`next_ins_index` (an out-of-range index is a panic), run its effect, then
advance the index by one.  `none` is a Rust panic. -/
def executeNextInstruction (P : ExtFuns) (prog : Program) (st : Interp) :
    Option (Program × Interp) :=
  match prog.task.ins.get? prog.next_ins_index with
  | none => none
  | some ins =>
      (executeInsBody P prog st ins).map
        (fun r => ({ r.1 with next_ins_index := r.1.next_ins_index + 1 }, r.2))

/-- Observable events of the scheduler: a provider query with its argument,
or a program running to completion. -/
inductive Event : Type
  | provCalled (arg : TaskID)
  | completed (id : TaskID)
deriving DecidableEq, Repr

/-- `Interpreter::set_task`: an empty slot is filled with a fresh program; a
matching task id leaves the slot untouched; a mismatching id on an occupied
slot is a panic (`none`). -/
def setTask (opt : Option Program) (new : Task) : Option (Option Program) :=
  match opt with
  | some op => if op.task.id ≠ new.id then none else some (some op)
  | none => some (some (Program.new new))

/-- `Interpreter::load_tasks`: query the provider with `last_task_id`,
install the returned tasks per direction, and clear `wants_tasks`.  The
second component records the provider query; `none` is a panic inside
`set_task`. -/
def loadTasks (st : Interp) : Option Interp × List Event :=
  let ev := [Event.provCalled st.last_task_id]
  match st.prov.get_next_tasks st.last_task_id with
  | TaskSet.inTask t =>
      match setTask st.current_prog_in t with
      | none => (none, ev)
      | some s => (some { st with current_prog_in := s, wants_tasks := false }, ev)
  | TaskSet.outTask t =>
      match setTask st.current_prog_out t with
      | none => (none, ev)
      | some s => (some { st with current_prog_out := s, wants_tasks := false }, ev)
  | TaskSet.inAndOutTasks tin tout =>
      match setTask st.current_prog_in tin with
      | none => (none, ev)
      | some si =>
          match setTask st.current_prog_out tout with
          | none => (none, ev)
          | some so =>
              (some { st with current_prog_in := si, current_prog_out := so,
                              wants_tasks := false }, ev)

/-- Result of the inner instruction loop of `next_net_cmd_in` /
`next_net_cmd_out`. -/
inductive InnerRes (Op : Type) : Type
  | panicked
  | fuelOut
  | yielded (op : Op) (st : Interp)
  | exhausted (prog : Program) (st : Interp)

/-- Inner loop of `Interpreter::next_net_cmd_in`: execute instructions of
the in-direction program until one publishes a pending `NetOpIn` (the
program is then put back with its advanced index and the op returned) or the
program is exhausted.  A panic during execution propagates; the error branch
of the Rust loop is unreachable because `execute_next_instruction` never
returns `Err`. -/
def innerRunIn (P : ExtFuns) : Nat → Program → Interp → InnerRes NetOpIn
  | 0, _, _ => InnerRes.fuelOut
  | fuel + 1, prog, st =>
      if prog.has_next_instruction then
        match executeNextInstruction P prog st with
        | none => InnerRes.panicked
        | some (prog', st') =>
            match st'.next_netop_in with
            | some op =>
                InnerRes.yielded op
                  { st' with next_netop_in := none, current_prog_in := some prog' }
            | none => innerRunIn P fuel prog' st'
      else InnerRes.exhausted prog st

/-- Inner loop of `Interpreter::next_net_cmd_out`, mirror image of
`innerRunIn` for the out direction. -/
def innerRunOut (P : ExtFuns) : Nat → Program → Interp → InnerRes NetOpOut
  | 0, _, _ => InnerRes.fuelOut
  | fuel + 1, prog, st =>
      if prog.has_next_instruction then
        match executeNextInstruction P prog st with
        | none => InnerRes.panicked
        | some (prog', st') =>
            match st'.next_netop_out with
            | some op =>
                InnerRes.yielded op
                  { st' with next_netop_out := none, current_prog_out := some prog' }
            | none => innerRunOut P fuel prog' st'
      else InnerRes.exhausted prog st

/-- Result of a poll of `next_net_cmd_in` / `next_net_cmd_out`: a panic, an
exhausted fuel bound (the Rust loop spins), the blocked direction (`Err`),
or a ready network operation. -/
inductive PollRes (Op : Type) : Type
  | panicked
  | fuelOut
  | blocked (st : Interp)
  | yielded (op : Op) (st : Interp)

/-- `Interpreter::next_net_cmd_in`: load tasks when wanted, take the current
in-program and run it; on exhaustion record `last_task_id`, set
`wants_tasks` and loop; with no in-program the direction blocks.  Ghost
events record the provider queries and program completions in order. -/
def nextNetCmdIn (P : ExtFuns) : Nat → Interp → PollRes NetOpIn × List Event
  | 0, _ => (PollRes.fuelOut, [])
  | fuel + 1, st =>
      let load := if st.wants_tasks then loadTasks st else (some st, [])
      match load with
      | (none, ev) => (PollRes.panicked, ev)
      | (some st1, ev) =>
          match st1.current_prog_in with
          | none => (PollRes.blocked st1, ev)
          | some prog =>
              let st2 := { st1 with current_prog_in := none }
              match innerRunIn P (prog.task.ins.length + 1 - prog.next_ins_index) prog st2 with
              | InnerRes.panicked => (PollRes.panicked, ev)
              | InnerRes.fuelOut => (PollRes.fuelOut, ev)
              | InnerRes.yielded op st3 => (PollRes.yielded op st3, ev)
              | InnerRes.exhausted progDone st3 =>
                  let st4 := { st3 with last_task_id := progDone.task.id, wants_tasks := true }
                  let next := nextNetCmdIn P fuel st4
                  (next.1, ev ++ Event.completed progDone.task.id :: next.2)

/-- `Interpreter::next_net_cmd_out`, mirror image of `nextNetCmdIn`. -/
def nextNetCmdOut (P : ExtFuns) : Nat → Interp → PollRes NetOpOut × List Event
  | 0, _ => (PollRes.fuelOut, [])
  | fuel + 1, st =>
      let load := if st.wants_tasks then loadTasks st else (some st, [])
      match load with
      | (none, ev) => (PollRes.panicked, ev)
      | (some st1, ev) =>
          match st1.current_prog_out with
          | none => (PollRes.blocked st1, ev)
          | some prog =>
              let st2 := { st1 with current_prog_out := none }
              match innerRunOut P (prog.task.ins.length + 1 - prog.next_ins_index) prog st2 with
              | InnerRes.panicked => (PollRes.panicked, ev)
              | InnerRes.fuelOut => (PollRes.fuelOut, ev)
              | InnerRes.yielded op st3 => (PollRes.yielded op st3, ev)
              | InnerRes.exhausted progDone st3 =>
                  let st4 := { st3 with last_task_id := progDone.task.id, wants_tasks := true }
                  let next := nextNetCmdOut P fuel st4
                  (next.1, ev ++ Event.completed progDone.task.id :: next.2)

/-- `Interpreter::store_in`: insert the bytes into the current in-program's
byte heap; with no current in-program the call is a no-op. -/
def storeIn (st : Interp) (addr : Ident) (bytes : List Nat) : Interp :=
  match st.current_prog_in with
  | some p => { st with current_prog_in := some { p with bytes_heap := p.bytes_heap.insert addr bytes } }
  | none => st

/-- `Interpreter::store_out`: insert the bytes into the current out-program's
byte heap; with no current out-program the call is a no-op. -/
def storeOut (st : Interp) (addr : Ident) (bytes : List Nat) : Interp :=
  match st.current_prog_out with
  | some p => { st with current_prog_out := some { p with bytes_heap := p.bytes_heap.insert addr bytes } }
  | none => st

/-- Init-task loop of `Interpreter::new`: run the init program to
completion; a panic propagates. -/
def runInit (P : ExtFuns) : Nat → Program → Interp → Option (Program × Interp)
  | 0, _, _ => none
  | fuel + 1, prog, st =>
      if prog.has_next_instruction then
        match executeNextInstruction P prog st with
        | none => none
        | some (prog', st') => runInit P fuel prog' st'
      else some (prog, st)

/-- `Interpreter::new`: construct the initial state, run the provider's init
task to completion, and record its task id as `last_task_id`. -/
def Interp.new (P : ExtFuns) (prov : TaskProvider) : Option Interp :=
  let st0 : Interp :=
    { prov := prov
      cipher := none
      next_netop_out := none
      next_netop_in := none
      current_prog_out := none
      current_prog_in := none
      last_task_id := 0
      wants_tasks := true }
  let initProg := Program.new prov.get_init_task
  (runInit P (initProg.task.ins.length + 1) initProg st0).map
    (fun r => { r.2 with last_task_id := r.1.task.id })

/-- Iterated instruction execution in which every step leaves no pending
in-direction net op: the silent prefix of one poll of the in direction. -/
def quietStepsIn (P : ExtFuns) : Nat → Program → Interp → Option (Program × Interp)
  | 0, p, s => some (p, s)
  | k + 1, p, s =>
      match executeNextInstruction P p s with
      | none => none
      | some (p', s') =>
          if s'.next_netop_in = none then quietStepsIn P k p' s' else none

/-- Iterated instruction execution in which every step leaves no pending
out-direction net op: the silent prefix of one poll of the out direction. -/
def quietStepsOut (P : ExtFuns) : Nat → Program → Interp → Option (Program × Interp)
  | 0, p, s => some (p, s)
  | k + 1, p, s =>
      match executeNextInstruction P p s with
      | none => none
      | some (p', s') =>
          if s'.next_netop_out = none then quietStepsOut P k p' s' else none

/-- Legality of an event trace with respect to the provider-call protocol:
a provider query happens only while `wants_tasks` is set (so at most once
per completion, the query resetting the flag), and always carries the id of
the most recent completion. -/
def traceOk : TaskID → Bool → List Event → Prop
  | _, _, [] => True
  | last, wants, Event.provCalled a :: rest =>
      wants = true ∧ a = last ∧ traceOk last false rest
  | _, _, Event.completed i :: rest => traceOk i true rest

/-- State of the provider-call protocol automaton after a trace:
`(last_task_id, wants_tasks)`. -/
def traceFinal : TaskID → Bool → List Event → TaskID × Bool
  | last, wants, [] => (last, wants)
  | last, _, Event.provCalled _ :: rest => traceFinal last false rest
  | _, _, Event.completed i :: rest => traceFinal i true rest

/-- Whether a poll of the in direction produced a `NetOpIn::Error`. -/
def isErrorYieldIn (r : PollRes NetOpIn × List Event) : Bool :=
  match r.1 with
  | PollRes.yielded (NetOpIn.error _) _ => true
  | _ => false

/-! ### Concrete instances used by witnesses and counterexamples -/

/-- Trivial external algorithms for concrete executions. -/
def P0 : ExtFuns :=
  { ks := fun _ _ _ => 0
    aeadEnc := fun _ _ p => (p, List.replicate 16 0)
    aeadDec := fun _ _ c _ => some c
    kdf := fun _ _ => List.replicate 32 0 }

/-- Task with a single instruction. -/
def taskOf (i : Instruction) : Task := { ins := [i], id := 0 }

/-- Fresh single-instruction program. -/
def progOf (i : Instruction) : Program := Program.new (taskOf i)

/-- Provider handing out an empty in-direction task. -/
def provB : TaskProvider :=
  { get_init_task := { ins := [], id := 0 }
    get_next_tasks := fun _ => TaskSet.inTask { ins := [], id := 1 } }

/-- Idle interpreter state used as the base of concrete executions. -/
def stBase : Interp :=
  { prov := provB
    cipher := none
    next_netop_out := none
    next_netop_in := none
    current_prog_out := none
    current_prog_in := none
    last_task_id := 0
    wants_tasks := false }

/-- Base state with a cipher installed. -/
def stCipher : Interp :=
  { stBase with cipher := some (ChachaCipher.new (List.replicate 32 0) CipherKind.sender) }

/-- Message with no fields. -/
def msg0 : Message := { fields := [], buf := [] }

/-- Single-instruction program whose message heap holds the empty-format
message under "m". -/
def progMsgOf (i : Instruction) : Program :=
  { progOf i with message_heap := [("m", msg0)] }

/-- Program executing `ReadNet` with a literal range. -/
def progR : Program :=
  progOf (Instruction.readNet { from_len := ReadNetLength.range 2 3, to_heap_id := "x" })

/-- The program `progR` after its single instruction ran. -/
def progR1 : Program := { progR with next_ins_index := 1 }

/-- Interpreter state after `progR`'s instruction published its op. -/
def stX : Interp := { stBase with next_netop_in := some (NetOpIn.recvNet 2 3 "x") }

/-- Interpreter state returned by the inner loop after `progR` yielded. -/
def stW : Interp := { stBase with current_prog_in := some progR1 }

/-- Base state with `progR` installed as the current in-program. -/
def stIn : Interp := { stBase with current_prog_in := some progR }

/-- Out-direction analogues for the `ReadApp` yield. -/
def progRA : Program :=
  progOf (Instruction.readApp { from_len_lo := 1, from_len_hi := 9, to_heap_id := "y" })

/-- The program `progRA` after its single instruction ran. -/
def progRA1 : Program := { progRA with next_ins_index := 1 }

/-- Interpreter state after `progRA`'s instruction published its op. -/
def stXO : Interp := { stBase with next_netop_out := some (NetOpOut.recvApp 1 9 "y") }

/-- Interpreter state returned by the out inner loop after `progRA`
yielded. -/
def stWO : Interp := { stBase with current_prog_out := some progRA1 }

/-- Base state with `progRA` installed as the current out-program. -/
def stOut : Interp := { stBase with current_prog_out := some progRA }

/-- ReadNet arguments of the identifier-minus form used by the C1 witness. -/
def argsM : ReadNetArgs :=
  { from_len := ReadNetLength.identifierMinus "n" 3, to_heap_id := "buf" }

/-- Program holding 10 under "n" and about to run the identifier-minus
read. -/
def progC1 : Program :=
  { progOf (Instruction.readNet argsM) with number_heap := [("n", 10)] }

/-- ReadNet arguments of the identifier form used by the C1 counterexample. -/
def argsI : ReadNetArgs :=
  { from_len := ReadNetLength.identifier "n", to_heap_id := "buf" }

/-- Program holding `2 ^ 64` under "n" and about to run the identifier
read: the `as usize` cast truncates this value. -/
def progC1x : Program :=
  { progOf (Instruction.readNet argsI) with number_heap := [("n", 2 ^ 64)] }

/-- Program referencing the absent number-heap key "missing". -/
def progMissing : Program :=
  progOf (Instruction.readNet { from_len := ReadNetLength.identifier "missing", to_heap_id := "x" })

/-- State whose in-direction program is about to hit the missing key. -/
def stC5 : Interp := { stBase with current_prog_in := some progMissing }

/-- Abstract format with one dynamic field sized by the blob "d". -/
def formatD : AbstractFormat :=
  { name := "F", fields := [{ name := "p", kind := FieldKind.dynamic "d" }] }

/-- Program about to concretize `formatD` with a 3-byte blob under "d". -/
def progC7 : Program :=
  { progOf (Instruction.concretizeFormat { from_format := formatD, to_heap_id := "cf" })
      with bytes_heap := [("d", [1, 2, 3])] }

/-- Tasks used by the C4 witness. -/
def task1 : Task := { ins := [], id := 1 }

/-- Task with a different id, for the mismatch case. -/
def task2 : Task := { ins := [], id := 2 }

/-- State whose provider returns `task1` for the in direction and whose in
slot holds a program of `task2`: the fatal mismatch. -/
def stMismatch : Interp :=
  { stBase with
      prov := { get_init_task := { ins := [], id := 0 }
                get_next_tasks := fun _ => TaskSet.inTask task1 }
      current_prog_in := some (Program.new task2)
      wants_tasks := true }

/-- Provider handing out `task1` for the in direction. -/
def provIn1 : TaskProvider :=
  { get_init_task := { ins := [], id := 0 }
    get_next_tasks := fun _ => TaskSet.inTask task1 }

/-- State wanting tasks with an empty in slot. -/
def stLoad : Interp := { stBase with prov := provIn1, wants_tasks := true }

/-- State wanting tasks whose in slot already holds a `task1` program. -/
def stMatch : Interp := { stLoad with current_prog_in := some (Program.new task1) }

/-- Single-instruction program whose byte heap holds a blob under "b". -/
def progBytesOf (i : Instruction) : Program :=
  { progOf i with bytes_heap := [("b", [1])] }

/-- Single-instruction program whose number heap holds a value under "v". -/
def progNumOf (i : Instruction) : Program :=
  { progOf i with number_heap := [("v", 1)] }

/-- Provider handing out `task1` for the out direction. -/
def provOut1 : TaskProvider :=
  { get_init_task := { ins := [], id := 0 }
    get_next_tasks := fun _ => TaskSet.outTask task1 }

/-- Provider handing out `task1` for both directions. -/
def provBoth : TaskProvider :=
  { get_init_task := { ins := [], id := 0 }
    get_next_tasks := fun _ => TaskSet.inAndOutTasks task1 task1 }

/-- State wanting tasks with an empty out slot, provider `provOut1`. -/
def stLoadOut : Interp := { stBase with prov := provOut1, wants_tasks := true }

/-- State wanting tasks with both slots empty, provider `provBoth`. -/
def stLoadBoth : Interp := { stBase with prov := provBoth, wants_tasks := true }

/-- Single-instruction program with a blob under "b" and the empty-format
message under "m". -/
def progBM (i : Instruction) : Program :=
  { progOf i with bytes_heap := [("b", [1])], message_heap := [("m", msg0)] }

/-- State whose out-direction program is about to hit the missing key. -/
def stC5Out : Interp := { stBase with current_prog_out := some progMissing }

/-- Agreement of a poll result's scheduler fields with the provider-call
automaton's final state: holds trivially for panics and fuel exhaustion. -/
def agreesFinal {Op : Type} (res : PollRes Op) (l : TaskID) (w : Bool)
    (tr : List Event) : Prop :=
  match res with
  | PollRes.yielded _ st' => (st'.last_task_id, st'.wants_tasks) = traceFinal l w tr
  | PollRes.blocked st' => (st'.last_task_id, st'.wants_tasks) = traceFinal l w tr
  | _ => True

end Proteus

namespace Proteus.Prototype

/-!
Model of src/net/proto/upgen/crypto/prototype.rs.

The external algorithms are parameters: `ks key seed i` is byte `i` of the
Salsa20 keystream for the given key and 8-byte seed (applying the keystream
to a zero buffer returns keystream bytes verbatim); `ae key nonce pt` is
ChaCha20Poly1305 encryption, returning the ciphertext with its appended
16-byte Poly1305 tag; `ad key nonce ct` is the matching decryption,
`none` on authentication failure. -/

/-- Sender/receiver role of a prototype cipher instance. -/
inductive CipherKind : Type
  | sender
  | receiver
deriving DecidableEq, Repr

/-- Cipher state: the shared key, the two nonce generators' seeds and
keystream positions (a Salsa20 instance is its key, nonce seed and stream
position; the two ChaCha20Poly1305 instances are keyed by the same key). -/
structure Cipher : Type where
  key : List Nat
  enc_seed : List Nat
  dec_seed : List Nat
  enc_pos : Nat
  dec_pos : Nat
deriving DecidableEq, Repr

/-- `Cipher::new`: NONCE_A = [0xAA; 8], NONCE_B = [0xBB; 8]; the Sender
seeds encryption with A and decryption with B, the Receiver mirrors. -/
def Cipher.new (secret_key : List Nat) (kind : CipherKind) : Cipher :=
  { key := secret_key
    enc_seed := match kind with | CipherKind.sender => NONCE_A | CipherKind.receiver => NONCE_B
    dec_seed := match kind with | CipherKind.sender => NONCE_B | CipherKind.receiver => NONCE_A
    enc_pos := 0
    dec_pos := 0 }

/-- `Cipher::get_nonce`: keystream a 12-byte zero buffer, i.e. take the next
12 keystream bytes, advancing the generator. -/
def getNonce (ks : List Nat → List Nat → Nat → Nat) (key seed : List Nat)
    (pos : Nat) : List Nat × Nat :=
  (nonceFrom ks key seed pos, pos + 12)

/-- `Cipher::encrypt`: pull a nonce from the encryption generator and
AEAD-encrypt (the tag is appended inside the ciphertext). -/
def Cipher.encrypt (ks : List Nat → List Nat → Nat → Nat)
    (ae : List Nat → List Nat → List Nat → List Nat)
    (c : Cipher) (plaintext : List Nat) : List Nat × Cipher :=
  let n := getNonce ks c.key c.enc_seed c.enc_pos
  (ae c.key n.1 plaintext, { c with enc_pos := n.2 })

/-- `Cipher::decrypt`: pull a nonce from the decryption generator and
AEAD-decrypt; `none` is the `expect("decryption failure")` panic. -/
def Cipher.decrypt (ks : List Nat → List Nat → Nat → Nat)
    (ad : List Nat → List Nat → List Nat → Option (List Nat))
    (c : Cipher) (ciphertext : List Nat) : Option (List Nat) × Cipher :=
  let n := getNonce ks c.key c.dec_seed c.dec_pos
  (ad c.key n.1 ciphertext, { c with dec_pos := n.2 })

/-- Nonce that the generator seeded with `seed` produces for the n-th
message (counting from 0): keystream bytes `[12 n, 12 n + 12)`. -/
def nonceAt (ks : List Nat → List Nat → Nat → Nat) (key seed : List Nat)
    (n : Nat) : List Nat :=
  nonceFrom ks key seed (12 * n)

/-- Sequence of ciphertexts produced by encrypting the given plaintexts in
order with one cipher instance. -/
def sendAll (ks : List Nat → List Nat → Nat → Nat)
    (ae : List Nat → List Nat → List Nat → List Nat) :
    Cipher → List (List Nat) → List (List Nat) × Cipher
  | c, [] => ([], c)
  | c, p :: rest =>
      let r := Cipher.encrypt ks ae c p
      let rs := sendAll ks ae r.2 rest
      (r.1 :: rs.1, rs.2)

/-- Sequence of plaintexts recovered by decrypting the given ciphertexts in
order with one cipher instance; `none` if any decryption panics. -/
def recvAll (ks : List Nat → List Nat → Nat → Nat)
    (ad : List Nat → List Nat → List Nat → Option (List Nat)) :
    Cipher → List (List Nat) → Option (List (List Nat) × Cipher)
  | c, [] => some ([], c)
  | c, ct :: rest =>
      match Cipher.decrypt ks ad c ct with
      | (none, _) => none
      | (some p, c') =>
          (recvAll ks ad c' rest).map (fun r => (p :: r.1, r.2))

/-- Byte cursor over an immutable buffer (`Cursor<Bytes>`). -/
structure BCursor : Type where
  data : List Nat
  pos : Nat
deriving DecidableEq, Repr

/-- `Cursor::remaining`: bytes left after the current position. -/
def BCursor.remaining (c : BCursor) : Nat := c.data.length - c.pos

/-- `Buf::copy_to_bytes(n)`: take the next `n` bytes and advance. -/
def BCursor.copy_to_bytes (c : BCursor) (n : Nat) : List Nat × BCursor :=
  ((c.data.drop c.pos).take n, { c with pos := c.pos + n })

/-- Crypto error type (src/net/proto/upgen/crypto/mod.rs). -/
inductive CryptoError : Type
  | cryptFailure
deriving DecidableEq, Repr

/-- `CryptoModule` state; the x25519 handshake material is carried opaquely. -/
structure CryptoModule : Type where
  my_secret_key : List Nat
  my_public_key : Option (List Nat)
  our_shared_secret_key : Option (List Nat)
  cipher : Option Cipher
deriving DecidableEq, Repr

/-- `CryptoModule::suggest_ciphertext_nbytes`: plaintext length plus the
16-byte Poly1305 MAC tag. -/
def suggest_ciphertext_nbytes (plaintext_len : Nat) : Nat :=
  plaintext_len + 16

/-- `CryptoModule::determine_plaintext_size`: converts through `isize`, so a
ciphertext length above `isize::MAX` panics (outer `none`); below 16 the
`usize` conversion of the negative difference fails (inner `none`). -/
def determine_plaintext_size (ciphertext_len : Nat) : Option (Option Nat) :=
  if ciphertext_len ≤ isizeMax then
    (if 16 ≤ ciphertext_len then some (some (ciphertext_len - 16)) else some none)
  else none

/-- `CryptoModule::encrypt`: refuse lengths below the 16-byte overhead,
then take exactly `ciphertext_len - 16` plaintext bytes from the cursor and
encrypt them.  `none` is a panic: the `isize` conversion, the `unwrap` of
`determine_plaintext_size`, the `unimplemented!` on a short cursor, or the
`unwrap` of an absent cipher inside `encrypt_impl`. -/
def CryptoModule.encrypt (ks : List Nat → List Nat → Nat → Nat)
    (ae : List Nat → List Nat → List Nat → List Nat)
    (m : CryptoModule) (plaintext : BCursor) (ciphertext_len : Nat) :
    Option (Except CryptoError (List Nat) × CryptoModule × BCursor) :=
  if ciphertext_len < suggest_ciphertext_nbytes 0 then
    some (Except.error CryptoError.cryptFailure, m, plaintext)
  else
    let plaintext_nbytes_available := plaintext.remaining
    match determine_plaintext_size ciphertext_len with
    | none => none
    | some none => none
    | some (some plaintext_nbytes_required) =>
        if plaintext_nbytes_available < plaintext_nbytes_required then none
        else
          let taken := plaintext.copy_to_bytes plaintext_nbytes_required
          match m.cipher with
          | none => none
          | some c =>
              let r := Cipher.encrypt ks ae c taken.1
              some (Except.ok r.1, { m with cipher := some r.2 }, taken.2)

/-! ### Concrete instances used by witnesses and counterexamples -/

/-- Keystream instance whose byte at position `i` is `i`: consecutive
12-byte nonces are pairwise distinct. -/
def ks0 : List Nat → List Nat → Nat → Nat := fun _ _ i => i

/-- AEAD encryption instance prepending the nonce, injective in the nonce. -/
def ae0 : List Nat → List Nat → List Nat → List Nat := fun _ n p => n ++ p

/-- Matching AEAD decryption instance. -/
def ad0 : List Nat → List Nat → List Nat → Option (List Nat) :=
  fun _ n c => if c.take n.length = n then some (c.drop n.length) else none

/-- AEAD encryption instance with the 16-byte length overhead of
ChaCha20Poly1305. -/
def aeLen0 : List Nat → List Nat → List Nat → List Nat :=
  fun _ _ p => p ++ List.replicate 16 0

/-- Crypto module with an installed cipher. -/
def cm0 : CryptoModule :=
  { my_secret_key := []
    my_public_key := none
    our_shared_secret_key := none
    cipher := some (Cipher.new [0] CipherKind.sender) }

/-- Crypto module before any handshake: no cipher installed. -/
def cmNone : CryptoModule := { cm0 with cipher := none }

/-- Five-byte cursor at position 0. -/
def cur5 : BCursor := { data := [1, 2, 3, 4, 5], pos := 0 }

end Proteus.Prototype

namespace Proteus

/-- Instruction bodies leave the program's task and index and the
scheduler-relevant interpreter fields untouched. -/
theorem execBody_frame (P : ExtFuns) (prog : Program) (st : Interp) (ins : Instruction)
    (prog' : Program) (st' : Interp)
    (h : executeInsBody P prog st ins = some (prog', st')) :
    prog'.task = prog.task ∧ prog'.next_ins_index = prog.next_ins_index ∧
    st'.last_task_id = st.last_task_id ∧ st'.wants_tasks = st.wants_tasks ∧
    st'.current_prog_in = st.current_prog_in ∧ st'.current_prog_out = st.current_prog_out ∧
    st'.prov = st.prov := by
  cases ins <;> simp only [executeInsBody] at h <;>
    (repeat' split at h) <;> (try cases h) <;> simp_all

/-- On completion, a step advances the index by exactly one and preserves
the task and the scheduler-relevant interpreter fields. -/
theorem execNI_frame (P : ExtFuns) (prog : Program) (st : Interp)
    (prog' : Program) (st' : Interp)
    (h : executeNextInstruction P prog st = some (prog', st')) :
    prog'.task = prog.task ∧ prog'.next_ins_index = prog.next_ins_index + 1 ∧
    st'.last_task_id = st.last_task_id ∧ st'.wants_tasks = st.wants_tasks ∧
    st'.current_prog_in = st.current_prog_in ∧ st'.current_prog_out = st.current_prog_out ∧
    st'.prov = st.prov := by
  unfold executeNextInstruction at h
  split at h
  · cases h
  · rcases Option.map_eq_some'.mp h with ⟨⟨p1, s1⟩, hb, he⟩
    have hf := execBody_frame P prog st _ p1 s1 hb
    cases he
    simp_all

/-- Yield characterization of the in-direction inner loop: a yielded op
arose from a silent run of `k` completed instructions followed by exactly
one execution of the instruction at index `next_ins_index + k`, which
published the op; the program is put back with its index one past that
instruction. -/
theorem innerRunIn_yield_aux (P : ExtFuns) :
    ∀ fuel prog st op st', innerRunIn P fuel prog st = InnerRes.yielded op st' →
    ∃ k pq sq pf sf,
      quietStepsIn P k prog st = some (pq, sq) ∧
      pq.next_ins_index = prog.next_ins_index + k ∧
      executeNextInstruction P pq sq = some (pf, sf) ∧
      sf.next_netop_in = some op ∧
      pf.next_ins_index = pq.next_ins_index + 1 ∧
      st' = { sf with next_netop_in := none, current_prog_in := some pf } := by
  intro fuel
  induction fuel with
  | zero => intro prog st op st' h; cases h
  | succ n ih =>
      intro prog st op st' h
      rw [innerRunIn] at h
      split at h
      · split at h
        · cases h
        · rename_i hex
          split at h
          · rename_i hop
            cases h
            refine ⟨0, prog, st, _, _, rfl, by omega, hex, hop, ?_, rfl⟩
            exact (execNI_frame P prog st _ _ hex).2.1
          · rename_i hop
            rcases ih _ _ _ _ h with ⟨k, pq, sq, pf, sf, hq, hidx, he2, hsf, hpf, hst⟩
            refine ⟨k + 1, pq, sq, pf, sf, ?_, ?_, he2, hsf, hpf, hst⟩
            · rw [quietStepsIn, hex]
              simp [hop, hq]
            · have := (execNI_frame P prog st _ _ hex).2.1
              omega
      · cases h

/-- Yield characterization of the out-direction inner loop, mirror image of
the in-direction one. -/
theorem innerRunOut_yield_aux (P : ExtFuns) :
    ∀ fuel prog st op st', innerRunOut P fuel prog st = InnerRes.yielded op st' →
    ∃ k pq sq pf sf,
      quietStepsOut P k prog st = some (pq, sq) ∧
      pq.next_ins_index = prog.next_ins_index + k ∧
      executeNextInstruction P pq sq = some (pf, sf) ∧
      sf.next_netop_out = some op ∧
      pf.next_ins_index = pq.next_ins_index + 1 ∧
      st' = { sf with next_netop_out := none, current_prog_out := some pf } := by
  intro fuel
  induction fuel with
  | zero => intro prog st op st' h; cases h
  | succ n ih =>
      intro prog st op st' h
      rw [innerRunOut] at h
      split at h
      · split at h
        · cases h
        · rename_i hex
          split at h
          · rename_i hop
            cases h
            refine ⟨0, prog, st, _, _, rfl, by omega, hex, hop, ?_, rfl⟩
            exact (execNI_frame P prog st _ _ hex).2.1
          · rename_i hop
            rcases ih _ _ _ _ h with ⟨k, pq, sq, pf, sf, hq, hidx, he2, hsf, hpf, hst⟩
            refine ⟨k + 1, pq, sq, pf, sf, ?_, ?_, he2, hsf, hpf, hst⟩
            · rw [quietStepsOut, hex]
              simp [hop, hq]
            · have := (execNI_frame P prog st _ _ hex).2.1
              omega
      · cases h

/-- When a poll of the in direction yields an op, the in-direction program
is retained, with its index already past the yielding instruction. -/
theorem pollIn_yield_retains_aux (P : ExtFuns) :
    ∀ fuel st op st', (nextNetCmdIn P fuel st).1 = PollRes.yielded op st' →
    ∃ pf, st'.current_prog_in = some pf ∧ 1 ≤ pf.next_ins_index := by
  intro fuel
  induction fuel with
  | zero => intro st op st' h; cases h
  | succ n ih =>
      intro st op st' h
      rw [nextNetCmdIn] at h
      split at h
      · cases h
      · rename_i st1 ev _
        split at h
        · cases h
        · rename_i prog hprog
          dsimp only at h
          split at h
          · cases h
          · cases h
          · rename_i op0 st3 hinner
            cases h
            rcases innerRunIn_yield_aux P _ _ _ _ _ hinner with
              ⟨k, pq, sq, pf, sf, _, _, _, _, hpf, hst⟩
            exact ⟨pf, by rw [hst], by omega⟩
          · exact ih _ _ _ h

/-- When a poll of the out direction yields an op, the out-direction program
is retained, with its index already past the yielding instruction. -/
theorem pollOut_yield_retains_aux (P : ExtFuns) :
    ∀ fuel st op st', (nextNetCmdOut P fuel st).1 = PollRes.yielded op st' →
    ∃ pf, st'.current_prog_out = some pf ∧ 1 ≤ pf.next_ins_index := by
  intro fuel
  induction fuel with
  | zero => intro st op st' h; cases h
  | succ n ih =>
      intro st op st' h
      rw [nextNetCmdOut] at h
      split at h
      · cases h
      · rename_i st1 ev _
        split at h
        · cases h
        · rename_i prog hprog
          dsimp only at h
          split at h
          · cases h
          · cases h
          · rename_i op0 st3 hinner
            cases h
            rcases innerRunOut_yield_aux P _ _ _ _ _ hinner with
              ⟨k, pq, sq, pf, sf, _, _, _, _, hpf, hst⟩
            exact ⟨pf, by rw [hst], by omega⟩
          · exact ih _ _ _ h

/-- C2: every instruction of every program is executed exactly once.  The
index advances by exactly one per completed instruction; a yielded net op
arose from a silent run of `k` single executions followed by one execution
of the instruction at index `next_ins_index + k`, and the program is
retained with its index one past that instruction, so a re-poll resumes at
the following instruction and never re-executes the one that yielded. -/
theorem c2_each_instruction_once :
    (∀ (P : ExtFuns) (prog : Program) (st : Interp) (r : Program × Interp),
       executeNextInstruction P prog st = some r →
       r.1.next_ins_index = prog.next_ins_index + 1 ∧ r.1.task = prog.task)
    ∧ (∀ (P : ExtFuns) (fuel : Nat) (prog : Program) (st : Interp) (op : NetOpIn)
         (st' : Interp), innerRunIn P fuel prog st = InnerRes.yielded op st' →
       ∃ k pq sq pf sf,
         quietStepsIn P k prog st = some (pq, sq) ∧
         pq.next_ins_index = prog.next_ins_index + k ∧
         executeNextInstruction P pq sq = some (pf, sf) ∧
         sf.next_netop_in = some op ∧
         pf.next_ins_index = pq.next_ins_index + 1 ∧
         st' = { sf with next_netop_in := none, current_prog_in := some pf })
    ∧ (∀ (P : ExtFuns) (fuel : Nat) (prog : Program) (st : Interp) (op : NetOpOut)
         (st' : Interp), innerRunOut P fuel prog st = InnerRes.yielded op st' →
       ∃ k pq sq pf sf,
         quietStepsOut P k prog st = some (pq, sq) ∧
         pq.next_ins_index = prog.next_ins_index + k ∧
         executeNextInstruction P pq sq = some (pf, sf) ∧
         sf.next_netop_out = some op ∧
         pf.next_ins_index = pq.next_ins_index + 1 ∧
         st' = { sf with next_netop_out := none, current_prog_out := some pf })
    ∧ (∀ (P : ExtFuns) (fuel : Nat) (st : Interp) (op : NetOpIn) (st' : Interp),
         (nextNetCmdIn P fuel st).1 = PollRes.yielded op st' →
       ∃ pf, st'.current_prog_in = some pf ∧ 1 ≤ pf.next_ins_index)
    ∧ (∀ (P : ExtFuns) (fuel : Nat) (st : Interp) (op : NetOpOut) (st' : Interp),
         (nextNetCmdOut P fuel st).1 = PollRes.yielded op st' →
       ∃ pf, st'.current_prog_out = some pf ∧ 1 ≤ pf.next_ins_index) := by
  refine ⟨?_, ?_, ?_, ?_, ?_⟩
  · intro P prog st r h
    rcases r with ⟨p1, s1⟩
    have hf := execNI_frame P prog st p1 s1 h
    exact ⟨hf.2.1, hf.1⟩
  · intro P fuel prog st op st' h
    exact innerRunIn_yield_aux P fuel prog st op st' h
  · intro P fuel prog st op st' h
    exact innerRunOut_yield_aux P fuel prog st op st' h
  · intro P fuel st op st' h
    exact pollIn_yield_retains_aux P fuel st op st' h
  · intro P fuel st op st' h
    exact pollOut_yield_retains_aux P fuel st op st' h

/-- Witness for C2 at concrete inputs: a one-instruction `ReadNet` program
in the in direction and a one-instruction `ReadApp` program in the out
direction. -/
theorem c2_each_instruction_once_witness :
    (progR1.next_ins_index = progR.next_ins_index + 1 ∧ progR1.task = progR.task)
    ∧ (∃ k pq sq pf sf,
         quietStepsIn P0 k progR stBase = some (pq, sq) ∧
         pq.next_ins_index = progR.next_ins_index + k ∧
         executeNextInstruction P0 pq sq = some (pf, sf) ∧
         sf.next_netop_in = some (NetOpIn.recvNet 2 3 "x") ∧
         pf.next_ins_index = pq.next_ins_index + 1 ∧
         stW = { sf with next_netop_in := none, current_prog_in := some pf })
    ∧ (∃ k pq sq pf sf,
         quietStepsOut P0 k progRA stBase = some (pq, sq) ∧
         pq.next_ins_index = progRA.next_ins_index + k ∧
         executeNextInstruction P0 pq sq = some (pf, sf) ∧
         sf.next_netop_out = some (NetOpOut.recvApp 1 9 "y") ∧
         pf.next_ins_index = pq.next_ins_index + 1 ∧
         stWO = { sf with next_netop_out := none, current_prog_out := some pf })
    ∧ (∃ pf, stW.current_prog_in = some pf ∧ 1 ≤ pf.next_ins_index)
    ∧ (∃ pf, stWO.current_prog_out = some pf ∧ 1 ≤ pf.next_ins_index) :=
  ⟨c2_each_instruction_once.1 P0 progR stBase (progR1, stX) rfl,
   c2_each_instruction_once.2.1 P0 2 progR stBase (NetOpIn.recvNet 2 3 "x") stW rfl,
   c2_each_instruction_once.2.2.1 P0 2 progRA stBase (NetOpOut.recvApp 1 9 "y") stWO rfl,
   c2_each_instruction_once.2.2.2.1 P0 1 stIn (NetOpIn.recvNet 2 3 "x") stW rfl,
   c2_each_instruction_once.2.2.2.2 P0 1 stOut (NetOpOut.recvApp 1 9 "y") stWO rfl⟩

/-- The in-direction inner loop leaves `last_task_id` and `wants_tasks`
untouched, both when yielding and when exhausting the program. -/
theorem innerRunIn_keeps_aux (P : ExtFuns) :
    ∀ fuel prog st,
      (∀ op st', innerRunIn P fuel prog st = InnerRes.yielded op st' →
        st'.last_task_id = st.last_task_id ∧ st'.wants_tasks = st.wants_tasks) ∧
      (∀ p' st', innerRunIn P fuel prog st = InnerRes.exhausted p' st' →
        st'.last_task_id = st.last_task_id ∧ st'.wants_tasks = st.wants_tasks) := by
  intro fuel
  induction fuel with
  | zero =>
      intro prog st
      refine ⟨fun _ _ h => ?_, fun _ _ h => ?_⟩ <;> cases h
  | succ n ih =>
      intro prog st
      constructor
      · intro op st' h
        rw [innerRunIn] at h
        split at h
        · split at h
          · cases h
          · rename_i hex
            split at h
            · cases h
              have hf := execNI_frame P prog st _ _ hex
              simp only []
              exact ⟨hf.2.2.1, hf.2.2.2.1⟩
            · have hr := (ih _ _).1 op st' h
              have hf := execNI_frame P prog st _ _ hex
              exact ⟨hr.1.trans hf.2.2.1, hr.2.trans hf.2.2.2.1⟩
        · cases h
      · intro p' st' h
        rw [innerRunIn] at h
        split at h
        · split at h
          · cases h
          · rename_i hex
            split at h
            · cases h
            · have hr := (ih _ _).2 p' st' h
              have hf := execNI_frame P prog st _ _ hex
              exact ⟨hr.1.trans hf.2.2.1, hr.2.trans hf.2.2.2.1⟩
        · cases h
          exact ⟨rfl, rfl⟩

/-- The out-direction inner loop leaves `last_task_id` and `wants_tasks`
untouched, both when yielding and when exhausting the program. -/
theorem innerRunOut_keeps_aux (P : ExtFuns) :
    ∀ fuel prog st,
      (∀ op st', innerRunOut P fuel prog st = InnerRes.yielded op st' →
        st'.last_task_id = st.last_task_id ∧ st'.wants_tasks = st.wants_tasks) ∧
      (∀ p' st', innerRunOut P fuel prog st = InnerRes.exhausted p' st' →
        st'.last_task_id = st.last_task_id ∧ st'.wants_tasks = st.wants_tasks) := by
  intro fuel
  induction fuel with
  | zero =>
      intro prog st
      refine ⟨fun _ _ h => ?_, fun _ _ h => ?_⟩ <;> cases h
  | succ n ih =>
      intro prog st
      constructor
      · intro op st' h
        rw [innerRunOut] at h
        split at h
        · split at h
          · cases h
          · rename_i hex
            split at h
            · cases h
              have hf := execNI_frame P prog st _ _ hex
              simp only []
              exact ⟨hf.2.2.1, hf.2.2.2.1⟩
            · have hr := (ih _ _).1 op st' h
              have hf := execNI_frame P prog st _ _ hex
              exact ⟨hr.1.trans hf.2.2.1, hr.2.trans hf.2.2.2.1⟩
        · cases h
      · intro p' st' h
        rw [innerRunOut] at h
        split at h
        · split at h
          · cases h
          · rename_i hex
            split at h
            · cases h
            · have hr := (ih _ _).2 p' st' h
              have hf := execNI_frame P prog st _ _ hex
              exact ⟨hr.1.trans hf.2.2.1, hr.2.trans hf.2.2.2.1⟩
        · cases h
          exact ⟨rfl, rfl⟩

/-- Behaviour of `load_tasks`: it queries the provider exactly once with the
current `last_task_id` (its ghost trace), and on success the state keeps
`last_task_id` and has `wants_tasks` cleared. -/
theorem loadTasks_spec (st : Interp) :
    (loadTasks st).2 = [Event.provCalled st.last_task_id] ∧
    ∀ st1, (loadTasks st).1 = some st1 →
      st1.last_task_id = st.last_task_id ∧ st1.wants_tasks = false := by
  constructor
  · unfold loadTasks
    split <;> (repeat' split) <;> rfl
  · intro st1 h
    unfold loadTasks at h
    split at h <;> (repeat' split at h) <;> (try cases h) <;> simp_all

/-- Automaton state after an appended trace. -/
theorem traceFinal_append :
    ∀ (e1 : List Event) (l : TaskID) (w : Bool) (e2 : List Event),
      traceFinal l w (e1 ++ e2) =
        traceFinal (traceFinal l w e1).1 (traceFinal l w e1).2 e2 := by
  intro e1
  induction e1 with
  | nil => intro l w e2; rfl
  | cons e rest ih =>
      intro l w e2
      cases e <;> simp [traceFinal, ih]

/-- Legal traces compose: a legal trace followed by a trace legal from the
automaton's resulting state is legal. -/
theorem traceOk_append :
    ∀ (e1 : List Event) (l : TaskID) (w : Bool) (e2 : List Event),
      traceOk l w e1 →
      traceOk (traceFinal l w e1).1 (traceFinal l w e1).2 e2 →
      traceOk l w (e1 ++ e2) := by
  intro e1
  induction e1 with
  | nil => intro l w e2 _ h2; exact h2
  | cons e rest ih =>
      intro l w e2 h1 h2
      cases e with
      | provCalled a =>
          rcases h1 with ⟨hw, ha, hr⟩
          exact ⟨hw, ha, ih l false e2 hr h2⟩
      | completed i =>
          exact ih i true e2 h1 h2

/-- Every poll of the in direction emits a legal provider-call trace and, if
it returns, leaves `(last_task_id, wants_tasks)` at the automaton's final
state. -/
theorem pollIn_trace_aux (P : ExtFuns) :
    ∀ fuel st,
      traceOk st.last_task_id st.wants_tasks (nextNetCmdIn P fuel st).2 ∧
      agreesFinal (nextNetCmdIn P fuel st).1 st.last_task_id st.wants_tasks
        (nextNetCmdIn P fuel st).2 := by
  intro fuel
  induction fuel with
  | zero => intro st; exact ⟨trivial, trivial⟩
  | succ n ih =>
      intro st
      by_cases hw : st.wants_tasks = true
      · rcases hLT : loadTasks st with ⟨o, ev⟩
        have hspec := loadTasks_spec st
        rw [hLT] at hspec
        have hev : ev = [Event.provCalled st.last_task_id] := hspec.1
        have hok : traceOk st.last_task_id st.wants_tasks ev := by
          rw [hev, hw]
          exact ⟨rfl, rfl, trivial⟩
        have hfin : traceFinal st.last_task_id st.wants_tasks ev = (st.last_task_id, false) := by
          rw [hev, hw]
          rfl
        cases o with
        | none =>
            have hstep : nextNetCmdIn P (n + 1) st = (PollRes.panicked, ev) := by
              rw [nextNetCmdIn, hw]
              simp only [if_true, hLT]
            rw [hstep]
            exact ⟨hok, trivial⟩
        | some st1 =>
            have hst1 := hspec.2 st1 rfl
            cases hcpi : st1.current_prog_in with
            | none =>
                have hstep : nextNetCmdIn P (n + 1) st = (PollRes.blocked st1, ev) := by
                  rw [nextNetCmdIn, hw]
                  simp only [if_true, hLT, hcpi]
                rw [hstep]
                refine ⟨hok, ?_⟩
                simp only [agreesFinal, hfin]
                rw [hst1.1, hst1.2]
            | some prog =>
                rcases hIR : innerRunIn P (prog.task.ins.length + 1 - prog.next_ins_index)
                    prog { st1 with current_prog_in := none } with _ | _ | ⟨op, st3⟩ | ⟨pd, st3⟩
                · have hstep : nextNetCmdIn P (n + 1) st = (PollRes.panicked, ev) := by
                    rw [nextNetCmdIn, hw]
                    simp only [if_true, hLT, hcpi, hIR]
                  rw [hstep]
                  exact ⟨hok, trivial⟩
                · have hstep : nextNetCmdIn P (n + 1) st = (PollRes.fuelOut, ev) := by
                    rw [nextNetCmdIn, hw]
                    simp only [if_true, hLT, hcpi, hIR]
                  rw [hstep]
                  exact ⟨hok, trivial⟩
                · have hstep : nextNetCmdIn P (n + 1) st = (PollRes.yielded op st3, ev) := by
                    rw [nextNetCmdIn, hw]
                    simp only [if_true, hLT, hcpi, hIR]
                  rw [hstep]
                  refine ⟨hok, ?_⟩
                  have hk := (innerRunIn_keeps_aux P _ _ _).1 op st3 hIR
                  have hk1 : st3.last_task_id = st1.last_task_id := hk.1
                  have hk2 : st3.wants_tasks = st1.wants_tasks := hk.2
                  simp only [agreesFinal, hfin]
                  rw [hk1, hk2, hst1.1, hst1.2]
                · have hk := (innerRunIn_keeps_aux P _ _ _).2 pd st3 hIR
                  set st4 : Interp :=
                    { st3 with last_task_id := pd.task.id, wants_tasks := true } with hst4
                  have hstep : nextNetCmdIn P (n + 1) st =
                      ((nextNetCmdIn P n st4).1,
                       ev ++ Event.completed pd.task.id :: (nextNetCmdIn P n st4).2) := by
                    rw [nextNetCmdIn, hw]
                    simp only [if_true, hLT, hcpi, hIR]
                  rw [hstep]
                  have ihs := ih st4
                  have h4l : st4.last_task_id = pd.task.id := rfl
                  have h4w : st4.wants_tasks = true := rfl
                  rw [h4l, h4w] at ihs
                  refine ⟨?_, ?_⟩
                  · refine traceOk_append ev st.last_task_id st.wants_tasks _ hok ?_
                    rw [hfin]
                    exact ihs.1
                  · have hfin2 : traceFinal st.last_task_id st.wants_tasks
                        (ev ++ Event.completed pd.task.id :: (nextNetCmdIn P n st4).2) =
                        traceFinal pd.task.id true (nextNetCmdIn P n st4).2 := by
                      rw [traceFinal_append, hfin]
                      rfl
                    have ha := ihs.2
                    cases hres : (nextNetCmdIn P n st4).1 with
                    | panicked => simp [agreesFinal]
                    | fuelOut => simp [agreesFinal]
                    | blocked st' =>
                        rw [hres] at ha
                        simp only [agreesFinal] at ha ⊢
                        rw [hfin2]
                        exact ha
                    | yielded op st' =>
                        rw [hres] at ha
                        simp only [agreesFinal] at ha ⊢
                        rw [hfin2]
                        exact ha
      · have hw' : st.wants_tasks = false := by
          cases hb : st.wants_tasks
          · rfl
          · exact absurd hb hw
        have hfin0 : traceFinal st.last_task_id st.wants_tasks ([] : List Event) =
            (st.last_task_id, false) := by
          rw [hw']
          rfl
        cases hcpi : st.current_prog_in with
        | none =>
            have hstep : nextNetCmdIn P (n + 1) st = (PollRes.blocked st, []) := by
              rw [nextNetCmdIn, hw']
              simp only [Bool.false_eq_true, if_false, hcpi]
            rw [hstep]
            refine ⟨trivial, ?_⟩
            simp only [agreesFinal, hfin0]
            rw [hw']
        | some prog =>
            rcases hIR : innerRunIn P (prog.task.ins.length + 1 - prog.next_ins_index)
                prog { st with current_prog_in := none } with _ | _ | ⟨op, st3⟩ | ⟨pd, st3⟩
            · have hstep : nextNetCmdIn P (n + 1) st = (PollRes.panicked, []) := by
                rw [nextNetCmdIn, hw']
                simp only [Bool.false_eq_true, if_false, hcpi, hIR]
              rw [hstep]
              exact ⟨trivial, trivial⟩
            · have hstep : nextNetCmdIn P (n + 1) st = (PollRes.fuelOut, []) := by
                rw [nextNetCmdIn, hw']
                simp only [Bool.false_eq_true, if_false, hcpi, hIR]
              rw [hstep]
              exact ⟨trivial, trivial⟩
            · have hstep : nextNetCmdIn P (n + 1) st = (PollRes.yielded op st3, []) := by
                rw [nextNetCmdIn, hw']
                simp only [Bool.false_eq_true, if_false, hcpi, hIR]
              rw [hstep]
              refine ⟨trivial, ?_⟩
              have hk := (innerRunIn_keeps_aux P _ _ _).1 op st3 hIR
              have hk1 : st3.last_task_id = st.last_task_id := hk.1
              have hk2 : st3.wants_tasks = st.wants_tasks := hk.2
              simp only [agreesFinal, hfin0]
              rw [hk1, hk2, hw']
            · have hk := (innerRunIn_keeps_aux P _ _ _).2 pd st3 hIR
              set st4 : Interp :=
                { st3 with last_task_id := pd.task.id, wants_tasks := true } with hst4
              have hstep : nextNetCmdIn P (n + 1) st =
                  ((nextNetCmdIn P n st4).1,
                   Event.completed pd.task.id :: (nextNetCmdIn P n st4).2) := by
                rw [nextNetCmdIn, hw']
                simp only [Bool.false_eq_true, if_false, hcpi, hIR]
                rfl
              rw [hstep]
              have ihs := ih st4
              have h4l : st4.last_task_id = pd.task.id := rfl
              have h4w : st4.wants_tasks = true := rfl
              rw [h4l, h4w] at ihs
              have hfin2 : traceFinal st.last_task_id st.wants_tasks
                  (Event.completed pd.task.id :: (nextNetCmdIn P n st4).2) =
                  traceFinal pd.task.id true (nextNetCmdIn P n st4).2 := rfl
              refine ⟨ihs.1, ?_⟩
              have ha := ihs.2
              cases hres : (nextNetCmdIn P n st4).1 with
              | panicked => simp [agreesFinal]
              | fuelOut => simp [agreesFinal]
              | blocked st' =>
                  rw [hres] at ha
                  simp only [agreesFinal] at ha ⊢
                  rw [hfin2]
                  exact ha
              | yielded op st' =>
                  rw [hres] at ha
                  simp only [agreesFinal] at ha ⊢
                  rw [hfin2]
                  exact ha

/-- Every poll of the out direction emits a legal provider-call trace and, if
it returns, leaves `(last_task_id, wants_tasks)` at the automaton's final
state. -/
theorem pollOut_trace_aux (P : ExtFuns) :
    ∀ fuel st,
      traceOk st.last_task_id st.wants_tasks (nextNetCmdOut P fuel st).2 ∧
      agreesFinal (nextNetCmdOut P fuel st).1 st.last_task_id st.wants_tasks
        (nextNetCmdOut P fuel st).2 := by
  intro fuel
  induction fuel with
  | zero => intro st; exact ⟨trivial, trivial⟩
  | succ n ih =>
      intro st
      by_cases hw : st.wants_tasks = true
      · rcases hLT : loadTasks st with ⟨o, ev⟩
        have hspec := loadTasks_spec st
        rw [hLT] at hspec
        have hev : ev = [Event.provCalled st.last_task_id] := hspec.1
        have hok : traceOk st.last_task_id st.wants_tasks ev := by
          rw [hev, hw]
          exact ⟨rfl, rfl, trivial⟩
        have hfin : traceFinal st.last_task_id st.wants_tasks ev = (st.last_task_id, false) := by
          rw [hev, hw]
          rfl
        cases o with
        | none =>
            have hstep : nextNetCmdOut P (n + 1) st = (PollRes.panicked, ev) := by
              rw [nextNetCmdOut, hw]
              simp only [if_true, hLT]
            rw [hstep]
            exact ⟨hok, trivial⟩
        | some st1 =>
            have hst1 := hspec.2 st1 rfl
            cases hcpi : st1.current_prog_out with
            | none =>
                have hstep : nextNetCmdOut P (n + 1) st = (PollRes.blocked st1, ev) := by
                  rw [nextNetCmdOut, hw]
                  simp only [if_true, hLT, hcpi]
                rw [hstep]
                refine ⟨hok, ?_⟩
                simp only [agreesFinal, hfin]
                rw [hst1.1, hst1.2]
            | some prog =>
                rcases hIR : innerRunOut P (prog.task.ins.length + 1 - prog.next_ins_index)
                    prog { st1 with current_prog_out := none } with _ | _ | ⟨op, st3⟩ | ⟨pd, st3⟩
                · have hstep : nextNetCmdOut P (n + 1) st = (PollRes.panicked, ev) := by
                    rw [nextNetCmdOut, hw]
                    simp only [if_true, hLT, hcpi, hIR]
                  rw [hstep]
                  exact ⟨hok, trivial⟩
                · have hstep : nextNetCmdOut P (n + 1) st = (PollRes.fuelOut, ev) := by
                    rw [nextNetCmdOut, hw]
                    simp only [if_true, hLT, hcpi, hIR]
                  rw [hstep]
                  exact ⟨hok, trivial⟩
                · have hstep : nextNetCmdOut P (n + 1) st = (PollRes.yielded op st3, ev) := by
                    rw [nextNetCmdOut, hw]
                    simp only [if_true, hLT, hcpi, hIR]
                  rw [hstep]
                  refine ⟨hok, ?_⟩
                  have hk := (innerRunOut_keeps_aux P _ _ _).1 op st3 hIR
                  have hk1 : st3.last_task_id = st1.last_task_id := hk.1
                  have hk2 : st3.wants_tasks = st1.wants_tasks := hk.2
                  simp only [agreesFinal, hfin]
                  rw [hk1, hk2, hst1.1, hst1.2]
                · have hk := (innerRunOut_keeps_aux P _ _ _).2 pd st3 hIR
                  set st4 : Interp :=
                    { st3 with last_task_id := pd.task.id, wants_tasks := true } with hst4
                  have hstep : nextNetCmdOut P (n + 1) st =
                      ((nextNetCmdOut P n st4).1,
                       ev ++ Event.completed pd.task.id :: (nextNetCmdOut P n st4).2) := by
                    rw [nextNetCmdOut, hw]
                    simp only [if_true, hLT, hcpi, hIR]
                  rw [hstep]
                  have ihs := ih st4
                  have h4l : st4.last_task_id = pd.task.id := rfl
                  have h4w : st4.wants_tasks = true := rfl
                  rw [h4l, h4w] at ihs
                  refine ⟨?_, ?_⟩
                  · refine traceOk_append ev st.last_task_id st.wants_tasks _ hok ?_
                    rw [hfin]
                    exact ihs.1
                  · have hfin2 : traceFinal st.last_task_id st.wants_tasks
                        (ev ++ Event.completed pd.task.id :: (nextNetCmdOut P n st4).2) =
                        traceFinal pd.task.id true (nextNetCmdOut P n st4).2 := by
                      rw [traceFinal_append, hfin]
                      rfl
                    have ha := ihs.2
                    cases hres : (nextNetCmdOut P n st4).1 with
                    | panicked => simp [agreesFinal]
                    | fuelOut => simp [agreesFinal]
                    | blocked st' =>
                        rw [hres] at ha
                        simp only [agreesFinal] at ha ⊢
                        rw [hfin2]
                        exact ha
                    | yielded op st' =>
                        rw [hres] at ha
                        simp only [agreesFinal] at ha ⊢
                        rw [hfin2]
                        exact ha
      · have hw' : st.wants_tasks = false := by
          cases hb : st.wants_tasks
          · rfl
          · exact absurd hb hw
        have hfin0 : traceFinal st.last_task_id st.wants_tasks ([] : List Event) =
            (st.last_task_id, false) := by
          rw [hw']
          rfl
        cases hcpi : st.current_prog_out with
        | none =>
            have hstep : nextNetCmdOut P (n + 1) st = (PollRes.blocked st, []) := by
              rw [nextNetCmdOut, hw']
              simp only [Bool.false_eq_true, if_false, hcpi]
            rw [hstep]
            refine ⟨trivial, ?_⟩
            simp only [agreesFinal, hfin0]
            rw [hw']
        | some prog =>
            rcases hIR : innerRunOut P (prog.task.ins.length + 1 - prog.next_ins_index)
                prog { st with current_prog_out := none } with _ | _ | ⟨op, st3⟩ | ⟨pd, st3⟩
            · have hstep : nextNetCmdOut P (n + 1) st = (PollRes.panicked, []) := by
                rw [nextNetCmdOut, hw']
                simp only [Bool.false_eq_true, if_false, hcpi, hIR]
              rw [hstep]
              exact ⟨trivial, trivial⟩
            · have hstep : nextNetCmdOut P (n + 1) st = (PollRes.fuelOut, []) := by
                rw [nextNetCmdOut, hw']
                simp only [Bool.false_eq_true, if_false, hcpi, hIR]
              rw [hstep]
              exact ⟨trivial, trivial⟩
            · have hstep : nextNetCmdOut P (n + 1) st = (PollRes.yielded op st3, []) := by
                rw [nextNetCmdOut, hw']
                simp only [Bool.false_eq_true, if_false, hcpi, hIR]
              rw [hstep]
              refine ⟨trivial, ?_⟩
              have hk := (innerRunOut_keeps_aux P _ _ _).1 op st3 hIR
              have hk1 : st3.last_task_id = st.last_task_id := hk.1
              have hk2 : st3.wants_tasks = st.wants_tasks := hk.2
              simp only [agreesFinal, hfin0]
              rw [hk1, hk2, hw']
            · have hk := (innerRunOut_keeps_aux P _ _ _).2 pd st3 hIR
              set st4 : Interp :=
                { st3 with last_task_id := pd.task.id, wants_tasks := true } with hst4
              have hstep : nextNetCmdOut P (n + 1) st =
                  ((nextNetCmdOut P n st4).1,
                   Event.completed pd.task.id :: (nextNetCmdOut P n st4).2) := by
                rw [nextNetCmdOut, hw']
                simp only [Bool.false_eq_true, if_false, hcpi, hIR]
                rfl
              rw [hstep]
              have ihs := ih st4
              have h4l : st4.last_task_id = pd.task.id := rfl
              have h4w : st4.wants_tasks = true := rfl
              rw [h4l, h4w] at ihs
              have hfin2 : traceFinal st.last_task_id st.wants_tasks
                  (Event.completed pd.task.id :: (nextNetCmdOut P n st4).2) =
                  traceFinal pd.task.id true (nextNetCmdOut P n st4).2 := rfl
              refine ⟨ihs.1, ?_⟩
              have ha := ihs.2
              cases hres : (nextNetCmdOut P n st4).1 with
              | panicked => simp [agreesFinal]
              | fuelOut => simp [agreesFinal]
              | blocked st' =>
                  rw [hres] at ha
                  simp only [agreesFinal] at ha ⊢
                  rw [hfin2]
                  exact ha
              | yielded op st' =>
                  rw [hres] at ha
                  simp only [agreesFinal] at ha ⊢
                  rw [hfin2]
                  exact ha

/-- Running the init task to completion preserves the program's task and
the `wants_tasks` flag. -/
theorem runInit_keeps_aux (P : ExtFuns) :
    ∀ fuel prog st r, runInit P fuel prog st = some r →
      r.1.task = prog.task ∧ r.2.wants_tasks = st.wants_tasks := by
  intro fuel
  induction fuel with
  | zero => intro prog st r h; cases h
  | succ n ih =>
      intro prog st r h
      rw [runInit] at h
      split at h
      · split at h
        · cases h
        · rename_i hex
          have hf := execNI_frame P prog st _ _ hex
          have hr := ih _ _ _ h
          exact ⟨hr.1.trans hf.1, hr.2.trans hf.2.2.2.1⟩
      · cases h
        exact ⟨rfl, rfl⟩

/-- A successfully constructed interpreter starts with `last_task_id` equal
to the init task's id and `wants_tasks` set. -/
theorem interpNew_aux (P : ExtFuns) (prov : TaskProvider) :
    ∀ st0, Interp.new P prov = some st0 →
      st0.last_task_id = prov.get_init_task.id ∧ st0.wants_tasks = true := by
  intro st0 h
  unfold Interp.new at h
  rcases Option.map_eq_some'.mp h with ⟨r, hrun, hmk⟩
  have hk := runInit_keeps_aux P _ _ _ _ hrun
  cases hmk
  constructor
  · simp only []
    rw [hk.1]
    rfl
  · simp only []
    exact hk.2

/-- C3: `get_next_tasks` is queried at most once per completed program and
every query passes exactly `last_task_id`, which is the id of the most
recently completed program (the init task's id before any other program has
completed): each poll's ghost trace is legal for the provider-call
automaton, the scheduler's `(last_task_id, wants_tasks)` agree with the
automaton's final state, construction sets `last_task_id` to the init
task's id with `wants_tasks` set, and `load_tasks` emits exactly one
provider query carrying `last_task_id`. -/
theorem c3_provider_call_discipline :
    (∀ (P : ExtFuns) (fuel : Nat) (st : Interp),
       traceOk st.last_task_id st.wants_tasks (nextNetCmdIn P fuel st).2 ∧
       agreesFinal (nextNetCmdIn P fuel st).1 st.last_task_id st.wants_tasks
         (nextNetCmdIn P fuel st).2)
    ∧ (∀ (P : ExtFuns) (fuel : Nat) (st : Interp),
       traceOk st.last_task_id st.wants_tasks (nextNetCmdOut P fuel st).2 ∧
       agreesFinal (nextNetCmdOut P fuel st).1 st.last_task_id st.wants_tasks
         (nextNetCmdOut P fuel st).2)
    ∧ (∀ (P : ExtFuns) (prov : TaskProvider),
       match Interp.new P prov with
       | some st0 => st0.last_task_id = prov.get_init_task.id ∧ st0.wants_tasks = true
       | none => True)
    ∧ (∀ st : Interp, (loadTasks st).2 = [Event.provCalled st.last_task_id]) := by
  refine ⟨?_, ?_, ?_, ?_⟩
  · intro P fuel st
    exact pollIn_trace_aux P fuel st
  · intro P fuel st
    exact pollOut_trace_aux P fuel st
  · intro P prov
    cases hn : Interp.new P prov with
    | none => trivial
    | some st0 => exact interpNew_aux P prov st0 hn
  · intro st
    exact (loadTasks_spec st).1

/-- C4: task installation rules.  An empty slot receives a fresh program
(index 0, empty heaps); an occupied slot with a matching task id is left
unchanged; an occupied slot with a differing id is fatal, and `load_tasks`
applies these rules to the slot or slots named by the provider's `TaskSet`
(in slot first for `InAndOutTasks`), clearing `wants_tasks` on success. -/
theorem c4_task_install_rules :
    (∀ t : Task, setTask none t = some (some (Program.new t)) ∧
       (Program.new t).task = t ∧ (Program.new t).next_ins_index = 0 ∧
       (Program.new t).bytes_heap = Heap.empty ∧ (Program.new t).format_heap = Heap.empty ∧
       (Program.new t).message_heap = Heap.empty ∧ (Program.new t).number_heap = Heap.empty)
    ∧ (∀ (p : Program) (t : Task), p.task.id = t.id → setTask (some p) t = some (some p))
    ∧ (∀ (p : Program) (t : Task), p.task.id ≠ t.id → setTask (some p) t = none)
    ∧ (∀ (st : Interp) (t : Task),
         st.prov.get_next_tasks st.last_task_id = TaskSet.inTask t →
         (∀ s, setTask st.current_prog_in t = some s →
            (loadTasks st).1 = some { st with current_prog_in := s, wants_tasks := false }) ∧
         (setTask st.current_prog_in t = none → (loadTasks st).1 = none))
    ∧ (∀ (st : Interp) (t : Task),
         st.prov.get_next_tasks st.last_task_id = TaskSet.outTask t →
         (∀ s, setTask st.current_prog_out t = some s →
            (loadTasks st).1 = some { st with current_prog_out := s, wants_tasks := false }) ∧
         (setTask st.current_prog_out t = none → (loadTasks st).1 = none))
    ∧ (∀ (st : Interp) (tin tout : Task),
         st.prov.get_next_tasks st.last_task_id = TaskSet.inAndOutTasks tin tout →
         (∀ si so, setTask st.current_prog_in tin = some si →
            setTask st.current_prog_out tout = some so →
            (loadTasks st).1 = some { st with current_prog_in := si, current_prog_out := so,
                                              wants_tasks := false }) ∧
         (setTask st.current_prog_in tin = none → (loadTasks st).1 = none) ∧
         (∀ si, setTask st.current_prog_in tin = some si →
            setTask st.current_prog_out tout = none → (loadTasks st).1 = none)) := by
  refine ⟨?_, ?_, ?_, ?_, ?_, ?_⟩
  · intro t
    exact ⟨rfl, rfl, rfl, rfl, rfl, rfl, rfl⟩
  · intro p t h
    simp [setTask, h]
  · intro p t h
    simp [setTask, h]
  · intro st t h
    refine ⟨?_, ?_⟩
    · intro s hs
      simp only [loadTasks, h, hs]
    · intro hs
      simp only [loadTasks, h, hs]
  · intro st t h
    refine ⟨?_, ?_⟩
    · intro s hs
      simp only [loadTasks, h, hs]
    · intro hs
      simp only [loadTasks, h, hs]
  · intro st tin tout h
    refine ⟨?_, ?_, ?_⟩
    · intro si so hsi hso
      simp only [loadTasks, h, hsi, hso]
    · intro hsi
      simp only [loadTasks, h, hsi]
    · intro si hsi hso
      simp only [loadTasks, h, hsi, hso]

/-- Witness for C4 at concrete inputs: install into an empty in slot, leave
a matching slot unchanged, panic on a mismatching slot, and install through
`load_tasks` for each `TaskSet` variant. -/
theorem c4_task_install_rules_witness :
    (setTask none task1 = some (some (Program.new task1)) ∧
       (Program.new task1).task = task1 ∧ (Program.new task1).next_ins_index = 0 ∧
       (Program.new task1).bytes_heap = Heap.empty ∧
       (Program.new task1).format_heap = Heap.empty ∧
       (Program.new task1).message_heap = Heap.empty ∧
       (Program.new task1).number_heap = Heap.empty)
    ∧ setTask (some (Program.new task1)) task1 = some (some (Program.new task1))
    ∧ setTask (some (Program.new task2)) task1 = none
    ∧ (loadTasks stLoad).1 =
        some { stLoad with current_prog_in := some (Program.new task1), wants_tasks := false }
    ∧ (loadTasks stMismatch).1 = none
    ∧ (loadTasks stLoadOut).1 =
        some { stLoadOut with current_prog_out := some (Program.new task1), wants_tasks := false }
    ∧ (loadTasks stLoadBoth).1 =
        some { stLoadBoth with current_prog_in := some (Program.new task1),
                               current_prog_out := some (Program.new task1),
                               wants_tasks := false } :=
  ⟨c4_task_install_rules.1 task1,
   c4_task_install_rules.2.1 (Program.new task1) task1 rfl,
   c4_task_install_rules.2.2.1 (Program.new task2) task1 (by decide),
   (c4_task_install_rules.2.2.2.1 stLoad task1 rfl).1 (some (Program.new task1)) rfl,
   (c4_task_install_rules.2.2.2.1 stMismatch task1 rfl).2 rfl,
   (c4_task_install_rules.2.2.2.2.1 stLoadOut task1 rfl).1 (some (Program.new task1)) rfl,
   (c4_task_install_rules.2.2.2.2.2 stLoadBoth task1 task1 rfl).1
     (some (Program.new task1)) (some (Program.new task1)) rfl rfl⟩

/-- C6: `store_in`/`store_out` insert into the current program's byte heap
of their direction, overwriting any prior entry at that address and leaving
every other address and all other interpreter state unchanged; with no
current program for that direction the call is a no-op. -/
theorem c6_store_frame :
    (∀ (st : Interp) (addr : Ident) (bytes : List Nat),
       st.current_prog_in = none → storeIn st addr bytes = st)
    ∧ (∀ (st : Interp) (p : Program) (addr : Ident) (bytes : List Nat),
       st.current_prog_in = some p →
       storeIn st addr bytes = { st with current_prog_in := some { p with bytes_heap := p.bytes_heap.insert addr bytes } } ∧
       (p.bytes_heap.insert addr bytes).get addr = some bytes ∧
       (∀ a, a ≠ addr → (p.bytes_heap.insert addr bytes).get a = p.bytes_heap.get a))
    ∧ (∀ (st : Interp) (addr : Ident) (bytes : List Nat),
       st.current_prog_out = none → storeOut st addr bytes = st)
    ∧ (∀ (st : Interp) (p : Program) (addr : Ident) (bytes : List Nat),
       st.current_prog_out = some p →
       storeOut st addr bytes = { st with current_prog_out := some { p with bytes_heap := p.bytes_heap.insert addr bytes } } ∧
       (p.bytes_heap.insert addr bytes).get addr = some bytes ∧
       (∀ a, a ≠ addr → (p.bytes_heap.insert addr bytes).get a = p.bytes_heap.get a)) := by
  refine ⟨?_, ?_, ?_, ?_⟩
  · intro st addr bytes h
    unfold storeIn
    rw [h]
  · intro st p addr bytes h
    refine ⟨?_, ?_, ?_⟩
    · unfold storeIn
      rw [h]
    · simp [Heap.insert, Heap.get]
    · intro a ha
      simp only [Heap.insert, Heap.get]
      rw [if_neg (fun hc => ha hc.symm)]
  · intro st addr bytes h
    unfold storeOut
    rw [h]
  · intro st p addr bytes h
    refine ⟨?_, ?_, ?_⟩
    · unfold storeOut
      rw [h]
    · simp [Heap.insert, Heap.get]
    · intro a ha
      simp only [Heap.insert, Heap.get]
      rw [if_neg (fun hc => ha hc.symm)]

/-- Witness for C6 at concrete inputs: a store with no in-program is a
no-op; a store into the in direction with `progR` current inserts at "a". -/
theorem c6_store_frame_witness :
    storeIn stBase "a" [1] = stBase
    ∧ (storeIn stIn "a" [1] = { stIn with current_prog_in := some { progR with bytes_heap := progR.bytes_heap.insert "a" [1] } } ∧
       (progR.bytes_heap.insert "a" [1]).get "a" = some [1] ∧
       (∀ a, a ≠ "a" → (progR.bytes_heap.insert "a" [1]).get a = progR.bytes_heap.get a))
    ∧ storeOut stBase "a" [1] = stBase
    ∧ (storeOut stOut "a" [1] = { stOut with current_prog_out := some { progRA with bytes_heap := progRA.bytes_heap.insert "a" [1] } } ∧
       (progRA.bytes_heap.insert "a" [1]).get "a" = some [1] ∧
       (∀ a, a ≠ "a" → (progRA.bytes_heap.insert "a" [1]).get a = progRA.bytes_heap.get a)) :=
  ⟨c6_store_frame.1 stBase "a" [1] rfl,
   c6_store_frame.2.1 stIn progR "a" [1] rfl,
   c6_store_frame.2.2.1 stBase "a" [1] rfl,
   c6_store_frame.2.2.2 stOut progRA "a" [1] rfl⟩

/-- C1 (amended): a `ReadNet` publishes `NetOpIn::RecvNet` with address
`to_heap_id` and length range the literal range, or `[N, N + 1)` for the
identifier form, or `[N - k, N - k + 1)` for the identifier-minus form,
where `N` is the number-heap value — provided `N + 1 < 2 ^ 64`, since the
`as usize` cast truncates the `u128` heap value. -/
theorem c1_read_net_length (P : ExtFuns) (prog : Program) (st : Interp) (args : ReadNetArgs)
    (h : prog.task.ins.get? prog.next_ins_index = some (Instruction.readNet args)) :
    match args.from_len with
    | ReadNetLength.range lo hi =>
        ∃ prog' st', executeNextInstruction P prog st = some (prog', st') ∧
          st'.next_netop_in = some (NetOpIn.recvNet lo hi args.to_heap_id)
    | ReadNetLength.identifier id =>
        ∀ N, prog.number_heap.get id = some N → N + 1 < U64 →
        ∃ prog' st', executeNextInstruction P prog st = some (prog', st') ∧
          st'.next_netop_in = some (NetOpIn.recvNet N (N + 1) args.to_heap_id)
    | ReadNetLength.identifierMinus id k =>
        ∀ N, prog.number_heap.get id = some N → k ≤ N → N + 1 < U64 →
        ∃ prog' st', executeNextInstruction P prog st = some (prog', st') ∧
          st'.next_netop_in = some (NetOpIn.recvNet (N - k) (N - k + 1) args.to_heap_id) := by
  cases hfl : args.from_len with
  | range lo hi =>
      have hstep : executeNextInstruction P prog st =
          some ({ prog with next_ins_index := prog.next_ins_index + 1 },
                { st with next_netop_in := some (NetOpIn.recvNet lo hi args.to_heap_id) }) := by
        unfold executeNextInstruction
        rw [h]
        simp only [executeInsBody, hfl]
        rfl
      exact ⟨_, _, hstep, rfl⟩
  | identifier id =>
      intro N hget hlt
      have hU : U64 = 18446744073709551616 := rfl
      have h1 : N % U64 = N := Nat.mod_eq_of_lt (by omega)
      have h2 : (N + 1) % U64 = N + 1 := Nat.mod_eq_of_lt hlt
      have hstep : executeNextInstruction P prog st =
          some ({ prog with next_ins_index := prog.next_ins_index + 1 },
                { st with next_netop_in := some (NetOpIn.recvNet (N % U64) ((N % U64 + 1) % U64) args.to_heap_id) }) := by
        unfold executeNextInstruction
        rw [h]
        simp only [executeInsBody, hfl, hget]
        rfl
      refine ⟨_, _, hstep, ?_⟩
      simp only []
      rw [h1, h2]
  | identifierMinus id k =>
      intro N hget hk hlt
      have hU : U64 = 18446744073709551616 := rfl
      have hNlt : N < U64 := by omega
      have hkU : k % U64 = k := Nat.mod_eq_of_lt (by omega)
      have hval : (N % U64 + (U64 - k % U64)) % U64 = N - k := by
        rw [Nat.mod_eq_of_lt hNlt, hkU]
        have h3 : N + (U64 - k) = (N - k) + U64 := by omega
        rw [h3, Nat.add_mod_right]
        exact Nat.mod_eq_of_lt (by omega)
      have h2 : (N - k + 1) % U64 = N - k + 1 := Nat.mod_eq_of_lt (by omega)
      have hstep : executeNextInstruction P prog st =
          some ({ prog with next_ins_index := prog.next_ins_index + 1 },
                { st with next_netop_in := some (NetOpIn.recvNet ((N % U64 + (U64 - k % U64)) % U64) (((N % U64 + (U64 - k % U64)) % U64 + 1) % U64) args.to_heap_id) }) := by
        unfold executeNextInstruction
        rw [h]
        simp only [executeInsBody, hfl, hget]
        rfl
      refine ⟨_, _, hstep, ?_⟩
      simp only []
      rw [hval, h2]

/-- Witness for C1 at a concrete input: the identifier-minus form with 10
stored under "n" and subtrahend 3 requests exactly the range `[7, 8)`. -/
theorem c1_read_net_length_witness :
    ∃ prog' st', executeNextInstruction P0 progC1 stBase = some (prog', st') ∧
      st'.next_netop_in = some (NetOpIn.recvNet 7 8 "buf") :=
  c1_read_net_length P0 progC1 stBase argsM rfl 10 rfl (by decide) (by decide)

/-- Counterexample to C1 as stated: with `N = 2 ^ 64` stored under "n" (a
legal `u128` heap value satisfying the claim's preconditions), the
published range is `[0, 1)` — the `as usize` truncation — and not the
claimed `[N, N + 1)`. -/
theorem c1_read_net_length_counterexample :
    (executeNextInstruction P0 progC1x stBase).map (fun r => r.2.next_netop_in) =
      some (some (NetOpIn.recvNet 0 1 "buf")) ∧
    NetOpIn.recvNet 0 1 "buf" ≠ NetOpIn.recvNet (2 ^ 64) (2 ^ 64 + 1) "buf" :=
  ⟨rfl, by decide⟩

/-- A listed dynamic-array identifier missing from the byte heap makes the
size-table construction panic. -/
theorem dynSizes_none_aux (h : Heap (List Nat)) :
    ∀ l id, id ∈ l → h.get id = none → dynSizes h l = none := by
  intro l
  induction l with
  | nil => intro id hm; cases hm
  | cons a rest ih =>
      intro id hm hnone
      rw [dynSizes]
      rcases List.mem_cons.mp hm with heq | hmem
      · have ha : h.get a = none := heq ▸ hnone
        rw [ha]
      · cases hga : h.get a with
        | none => rfl
        | some b => rw [ih id hmem hnone]; rfl

/-- C5 (amended): an instruction referencing a heap key absent from the
relevant heap, or a message field absent from the message's format, is
fatal — the interpreter panics (the step produces no state), and the panic
propagates out of `next_net_cmd_in`/`next_net_cmd_out`; no
`NetOp*::Error` is produced, the error branch of the polling loops being
unreachable. -/
theorem c5_missing_key_panics :
    (∀ (P : ExtFuns) (prog : Program) (st : Interp) (a : ComputeLengthArgs),
       prog.task.ins.get? prog.next_ins_index = some (Instruction.computeLength a) →
       prog.message_heap.get a.from_msg_heap_id = none →
       executeNextInstruction P prog st = none)
    ∧ (∀ (P : ExtFuns) (prog : Program) (st : Interp) (a : ComputeLengthArgs) (msg : Message),
       prog.task.ins.get? prog.next_ins_index = some (Instruction.computeLength a) →
       prog.message_heap.get a.from_msg_heap_id = some msg →
       msg.len_suffix a.from_field_id = none →
       executeNextInstruction P prog st = none)
    ∧ (∀ (P : ExtFuns) (prog : Program) (st : Interp) (a : ConcretizeFormatArgs) (id : Ident),
       prog.task.ins.get? prog.next_ins_index = some (Instruction.concretizeFormat a) →
       id ∈ a.from_format.get_dynamic_arrays →
       prog.bytes_heap.get id = none →
       executeNextInstruction P prog st = none)
    ∧ (∀ (P : ExtFuns) (prog : Program) (st : Interp) (a : CreateMessageArgs),
       prog.task.ins.get? prog.next_ins_index = some (Instruction.createMessage a) →
       prog.format_heap.get a.from_format_heap_id = none →
       executeNextInstruction P prog st = none)
    ∧ (∀ (P : ExtFuns) (prog : Program) (st : Interp) (a : GetArrayBytesArgs),
       prog.task.ins.get? prog.next_ins_index = some (Instruction.getArrayBytes a) →
       prog.message_heap.get a.from_msg_heap_id = none →
       executeNextInstruction P prog st = none)
    ∧ (∀ (P : ExtFuns) (prog : Program) (st : Interp) (a : GetArrayBytesArgs) (msg : Message),
       prog.task.ins.get? prog.next_ins_index = some (Instruction.getArrayBytes a) →
       prog.message_heap.get a.from_msg_heap_id = some msg →
       msg.get_field_bytes a.from_field_id = none →
       executeNextInstruction P prog st = none)
    ∧ (∀ (P : ExtFuns) (prog : Program) (st : Interp) (a : GetNumericValueArgs),
       prog.task.ins.get? prog.next_ins_index = some (Instruction.getNumericValue a) →
       prog.message_heap.get a.from_msg_heap_id = none →
       executeNextInstruction P prog st = none)
    ∧ (∀ (P : ExtFuns) (prog : Program) (st : Interp) (a : GetNumericValueArgs) (msg : Message),
       prog.task.ins.get? prog.next_ins_index = some (Instruction.getNumericValue a) →
       prog.message_heap.get a.from_msg_heap_id = some msg →
       msg.get_field_unsigned_numeric a.from_field_id = none →
       executeNextInstruction P prog st = none)
    ∧ (∀ (P : ExtFuns) (prog : Program) (st : Interp) (a : ReadNetArgs) (id : Ident),
       prog.task.ins.get? prog.next_ins_index = some (Instruction.readNet a) →
       a.from_len = ReadNetLength.identifier id →
       prog.number_heap.get id = none →
       executeNextInstruction P prog st = none)
    ∧ (∀ (P : ExtFuns) (prog : Program) (st : Interp) (a : ReadNetArgs) (id : Ident) (k : Nat),
       prog.task.ins.get? prog.next_ins_index = some (Instruction.readNet a) →
       a.from_len = ReadNetLength.identifierMinus id k →
       prog.number_heap.get id = none →
       executeNextInstruction P prog st = none)
    ∧ (∀ (P : ExtFuns) (prog : Program) (st : Interp) (a : SetArrayBytesArgs),
       prog.task.ins.get? prog.next_ins_index = some (Instruction.setArrayBytes a) →
       prog.bytes_heap.get a.from_heap_id = none →
       executeNextInstruction P prog st = none)
    ∧ (∀ (P : ExtFuns) (prog : Program) (st : Interp) (a : SetArrayBytesArgs) (b : List Nat),
       prog.task.ins.get? prog.next_ins_index = some (Instruction.setArrayBytes a) →
       prog.bytes_heap.get a.from_heap_id = some b →
       prog.message_heap.get a.to_msg_heap_id = none →
       executeNextInstruction P prog st = none)
    ∧ (∀ (P : ExtFuns) (prog : Program) (st : Interp) (a : SetArrayBytesArgs) (b : List Nat)
         (msg : Message),
       prog.task.ins.get? prog.next_ins_index = some (Instruction.setArrayBytes a) →
       prog.bytes_heap.get a.from_heap_id = some b →
       prog.message_heap.get a.to_msg_heap_id = some msg →
       msg.set_field_bytes a.to_field_id b = none →
       executeNextInstruction P prog st = none)
    ∧ (∀ (P : ExtFuns) (prog : Program) (st : Interp) (a : SetNumericValueArgs),
       prog.task.ins.get? prog.next_ins_index = some (Instruction.setNumericValue a) →
       prog.number_heap.get a.from_heap_id = none →
       executeNextInstruction P prog st = none)
    ∧ (∀ (P : ExtFuns) (prog : Program) (st : Interp) (a : SetNumericValueArgs) (v : Nat),
       prog.task.ins.get? prog.next_ins_index = some (Instruction.setNumericValue a) →
       prog.number_heap.get a.from_heap_id = some v →
       prog.message_heap.get a.to_msg_heap_id = none →
       executeNextInstruction P prog st = none)
    ∧ (∀ (P : ExtFuns) (prog : Program) (st : Interp) (a : WriteAppArgs),
       prog.task.ins.get? prog.next_ins_index = some (Instruction.writeApp a) →
       prog.message_heap.get a.from_msg_heap_id = none →
       executeNextInstruction P prog st = none)
    ∧ (∀ (P : ExtFuns) (prog : Program) (st : Interp) (a : WriteAppArgs) (msg : Message),
       prog.task.ins.get? prog.next_ins_index = some (Instruction.writeApp a) →
       prog.message_heap.get a.from_msg_heap_id = some msg →
       msg.into_inner_field a.from_field_id = none →
       executeNextInstruction P prog st = none)
    ∧ (∀ (P : ExtFuns) (prog : Program) (st : Interp) (a : WriteNetArgs),
       prog.task.ins.get? prog.next_ins_index = some (Instruction.writeNet a) →
       prog.message_heap.get a.from_msg_heap_id = none →
       executeNextInstruction P prog st = none)
    ∧ (∀ (P : ExtFuns) (prog : Program) (st : Interp) (a : EncryptFieldArgs) (c : ChachaCipher),
       prog.task.ins.get? prog.next_ins_index = some (Instruction.encryptField a) →
       st.cipher = some c →
       prog.message_heap.get a.from_msg_heap_id = none →
       executeNextInstruction P prog st = none)
    ∧ (∀ (P : ExtFuns) (prog : Program) (st : Interp) (a : DecryptFieldArgs) (c : ChachaCipher),
       prog.task.ins.get? prog.next_ins_index = some (Instruction.decryptField a) →
       st.cipher = some c →
       prog.message_heap.get a.from_msg_heap_id = none →
       executeNextInstruction P prog st = none)
    ∧ (∀ (P : ExtFuns) (fuel : Nat) (prog : Program) (st : Interp),
       prog.has_next_instruction = true →
       executeNextInstruction P prog st = none →
       innerRunIn P (fuel + 1) prog st = InnerRes.panicked)
    ∧ (∀ (P : ExtFuns) (fuel : Nat) (prog : Program) (st : Interp),
       prog.has_next_instruction = true →
       executeNextInstruction P prog st = none →
       innerRunOut P (fuel + 1) prog st = InnerRes.panicked)
    ∧ (∀ (P : ExtFuns) (fuel : Nat) (st : Interp) (prog : Program),
       st.wants_tasks = false →
       st.current_prog_in = some prog →
       innerRunIn P (prog.task.ins.length + 1 - prog.next_ins_index) prog
         { st with current_prog_in := none } = InnerRes.panicked →
       (nextNetCmdIn P (fuel + 1) st).1 = PollRes.panicked)
    ∧ (∀ (P : ExtFuns) (fuel : Nat) (st : Interp) (prog : Program),
       st.wants_tasks = false →
       st.current_prog_out = some prog →
       innerRunOut P (prog.task.ins.length + 1 - prog.next_ins_index) prog
         { st with current_prog_out := none } = InnerRes.panicked →
       (nextNetCmdOut P (fuel + 1) st).1 = PollRes.panicked) := by
  refine ⟨?_, ?_, ?_, ?_, ?_, ?_, ?_, ?_, ?_, ?_, ?_, ?_, ?_, ?_, ?_, ?_, ?_, ?_, ?_, ?_,
          ?_, ?_, ?_, ?_⟩
  · intro P prog st a h h1
    unfold executeNextInstruction
    rw [h]
    simp only [executeInsBody, h1, Option.map_none']
  · intro P prog st a msg h h1 h2
    unfold executeNextInstruction
    rw [h]
    simp only [executeInsBody, h1, h2, Option.map_none']
  · intro P prog st a id h hm h1
    unfold executeNextInstruction
    rw [h]
    simp only [executeInsBody, dynSizes_none_aux prog.bytes_heap _ id hm h1, Option.map_none']
  · intro P prog st a h h1
    unfold executeNextInstruction
    rw [h]
    simp only [executeInsBody, Heap.remove, h1, Option.map_none']
  · intro P prog st a h h1
    unfold executeNextInstruction
    rw [h]
    simp only [executeInsBody, h1, Option.map_none']
  · intro P prog st a msg h h1 h2
    unfold executeNextInstruction
    rw [h]
    simp only [executeInsBody, h1, h2, Option.map_none']
  · intro P prog st a h h1
    unfold executeNextInstruction
    rw [h]
    simp only [executeInsBody, h1, Option.map_none']
  · intro P prog st a msg h h1 h2
    unfold executeNextInstruction
    rw [h]
    simp only [executeInsBody, h1, h2, Option.map_none']
  · intro P prog st a id h hfl h1
    unfold executeNextInstruction
    rw [h]
    simp only [executeInsBody, hfl, h1, Option.map_none']
  · intro P prog st a id k h hfl h1
    unfold executeNextInstruction
    rw [h]
    simp only [executeInsBody, hfl, h1, Option.map_none']
  · intro P prog st a h h1
    unfold executeNextInstruction
    rw [h]
    simp only [executeInsBody, h1, Option.map_none']
  · intro P prog st a b h h1 h2
    unfold executeNextInstruction
    rw [h]
    simp only [executeInsBody, h1, Heap.remove, h2, Option.map_none']
  · intro P prog st a b msg h h1 h2 h3
    unfold executeNextInstruction
    rw [h]
    simp only [executeInsBody, h1, Heap.remove, h2, h3, Option.map_none']
  · intro P prog st a h h1
    unfold executeNextInstruction
    rw [h]
    simp only [executeInsBody, h1, Option.map_none']
  · intro P prog st a v h h1 h2
    unfold executeNextInstruction
    rw [h]
    simp only [executeInsBody, h1, Heap.remove, h2, Option.map_none']
  · intro P prog st a h h1
    unfold executeNextInstruction
    rw [h]
    simp only [executeInsBody, Heap.remove, h1, Option.map_none']
  · intro P prog st a msg h h1 h2
    unfold executeNextInstruction
    rw [h]
    simp only [executeInsBody, Heap.remove, h1, h2, Option.map_none']
  · intro P prog st a h h1
    unfold executeNextInstruction
    rw [h]
    simp only [executeInsBody, Heap.remove, h1, Option.map_none']
  · intro P prog st a c h hc h1
    unfold executeNextInstruction
    rw [h]
    simp only [executeInsBody, hc, h1, Option.map_none']
  · intro P prog st a c h hc h1
    unfold executeNextInstruction
    rw [h]
    simp only [executeInsBody, hc, h1, Option.map_none']
  · intro P fuel prog st hn hx
    rw [innerRunIn]
    simp only [hn, if_true, hx]
  · intro P fuel prog st hn hx
    rw [innerRunOut]
    simp only [hn, if_true, hx]
  · intro P fuel st prog hw hcpi hIR
    rw [nextNetCmdIn]
    rw [hw]
    simp only [Bool.false_eq_true, if_false, hcpi, hIR]
  · intro P fuel st prog hw hcpi hIR
    rw [nextNetCmdOut]
    rw [hw]
    simp only [Bool.false_eq_true, if_false, hcpi, hIR]

/-- Witness for C5 at concrete inputs: each missing-key and missing-field
programmer error panics, and the panic propagates through the inner loops
and the polls. -/
theorem c5_missing_key_panics_witness :
    executeNextInstruction P0 (progOf (Instruction.computeLength ⟨"m", "f", "t"⟩)) stBase = none
    ∧ executeNextInstruction P0 (progMsgOf (Instruction.computeLength ⟨"m", "f", "t"⟩)) stBase = none
    ∧ executeNextInstruction P0 (progOf (Instruction.concretizeFormat ⟨formatD, "cf"⟩)) stBase = none
    ∧ executeNextInstruction P0 (progOf (Instruction.createMessage ⟨"cf", "m"⟩)) stBase = none
    ∧ executeNextInstruction P0 (progOf (Instruction.getArrayBytes ⟨"m", "f", "t"⟩)) stBase = none
    ∧ executeNextInstruction P0 (progMsgOf (Instruction.getArrayBytes ⟨"m", "f", "t"⟩)) stBase = none
    ∧ executeNextInstruction P0 (progOf (Instruction.getNumericValue ⟨"m", "f", "t"⟩)) stBase = none
    ∧ executeNextInstruction P0 (progMsgOf (Instruction.getNumericValue ⟨"m", "f", "t"⟩)) stBase = none
    ∧ executeNextInstruction P0 progMissing stBase = none
    ∧ executeNextInstruction P0
        (progOf (Instruction.readNet ⟨ReadNetLength.identifierMinus "m" 1, "x"⟩)) stBase = none
    ∧ executeNextInstruction P0 (progOf (Instruction.setArrayBytes ⟨"b", "m", "f"⟩)) stBase = none
    ∧ executeNextInstruction P0 (progBytesOf (Instruction.setArrayBytes ⟨"b", "m", "f"⟩)) stBase = none
    ∧ executeNextInstruction P0 (progBM (Instruction.setArrayBytes ⟨"b", "m", "f"⟩)) stBase = none
    ∧ executeNextInstruction P0 (progOf (Instruction.setNumericValue ⟨"v", "m", "f"⟩)) stBase = none
    ∧ executeNextInstruction P0 (progNumOf (Instruction.setNumericValue ⟨"v", "m", "f"⟩)) stBase = none
    ∧ executeNextInstruction P0 (progOf (Instruction.writeApp ⟨"m", "f"⟩)) stBase = none
    ∧ executeNextInstruction P0 (progMsgOf (Instruction.writeApp ⟨"m", "f"⟩)) stBase = none
    ∧ executeNextInstruction P0 (progOf (Instruction.writeNet ⟨"m"⟩)) stBase = none
    ∧ executeNextInstruction P0 (progOf (Instruction.encryptField ⟨"m", "f", "c", "t"⟩)) stCipher = none
    ∧ executeNextInstruction P0 (progOf (Instruction.decryptField ⟨"m", "c", "k", "t"⟩)) stCipher = none
    ∧ innerRunIn P0 1 progMissing stBase = InnerRes.panicked
    ∧ innerRunOut P0 1 progMissing stBase = InnerRes.panicked
    ∧ (nextNetCmdIn P0 1 stC5).1 = PollRes.panicked
    ∧ (nextNetCmdOut P0 1 stC5Out).1 = PollRes.panicked :=
  ⟨c5_missing_key_panics.1 P0 _ stBase ⟨"m", "f", "t"⟩ rfl rfl,
   c5_missing_key_panics.2.1 P0 _ stBase ⟨"m", "f", "t"⟩ msg0 rfl rfl rfl,
   c5_missing_key_panics.2.2.1 P0 _ stBase ⟨formatD, "cf"⟩ "d" rfl (by decide) rfl,
   c5_missing_key_panics.2.2.2.1 P0 _ stBase ⟨"cf", "m"⟩ rfl rfl,
   c5_missing_key_panics.2.2.2.2.1 P0 _ stBase ⟨"m", "f", "t"⟩ rfl rfl,
   c5_missing_key_panics.2.2.2.2.2.1 P0 _ stBase ⟨"m", "f", "t"⟩ msg0 rfl rfl rfl,
   c5_missing_key_panics.2.2.2.2.2.2.1 P0 _ stBase ⟨"m", "f", "t"⟩ rfl rfl,
   c5_missing_key_panics.2.2.2.2.2.2.2.1 P0 _ stBase ⟨"m", "f", "t"⟩ msg0 rfl rfl rfl,
   c5_missing_key_panics.2.2.2.2.2.2.2.2.1 P0 _ stBase
     ⟨ReadNetLength.identifier "missing", "x"⟩ "missing" rfl rfl rfl,
   c5_missing_key_panics.2.2.2.2.2.2.2.2.2.1 P0 _ stBase
     ⟨ReadNetLength.identifierMinus "m" 1, "x"⟩ "m" 1 rfl rfl rfl,
   c5_missing_key_panics.2.2.2.2.2.2.2.2.2.2.1 P0 _ stBase ⟨"b", "m", "f"⟩ rfl rfl,
   c5_missing_key_panics.2.2.2.2.2.2.2.2.2.2.2.1 P0 _ stBase ⟨"b", "m", "f"⟩ [1] rfl rfl rfl,
   c5_missing_key_panics.2.2.2.2.2.2.2.2.2.2.2.2.1 P0 _ stBase ⟨"b", "m", "f"⟩ [1] msg0
     rfl rfl rfl rfl,
   c5_missing_key_panics.2.2.2.2.2.2.2.2.2.2.2.2.2.1 P0 _ stBase ⟨"v", "m", "f"⟩ rfl rfl,
   c5_missing_key_panics.2.2.2.2.2.2.2.2.2.2.2.2.2.2.1 P0 _ stBase ⟨"v", "m", "f"⟩ 1 rfl rfl rfl,
   c5_missing_key_panics.2.2.2.2.2.2.2.2.2.2.2.2.2.2.2.1 P0 _ stBase ⟨"m", "f"⟩ rfl rfl,
   c5_missing_key_panics.2.2.2.2.2.2.2.2.2.2.2.2.2.2.2.2.1 P0 _ stBase ⟨"m", "f"⟩ msg0 rfl rfl rfl,
   c5_missing_key_panics.2.2.2.2.2.2.2.2.2.2.2.2.2.2.2.2.2.1 P0 _ stBase ⟨"m"⟩ rfl rfl,
   c5_missing_key_panics.2.2.2.2.2.2.2.2.2.2.2.2.2.2.2.2.2.2.1 P0 _ stCipher
     ⟨"m", "f", "c", "t"⟩ (ChachaCipher.new (List.replicate 32 0) CipherKind.sender) rfl rfl rfl,
   c5_missing_key_panics.2.2.2.2.2.2.2.2.2.2.2.2.2.2.2.2.2.2.2.1 P0 _ stCipher
     ⟨"m", "c", "k", "t"⟩ (ChachaCipher.new (List.replicate 32 0) CipherKind.sender) rfl rfl rfl,
   c5_missing_key_panics.2.2.2.2.2.2.2.2.2.2.2.2.2.2.2.2.2.2.2.2.1 P0 0 progMissing stBase rfl rfl,
   c5_missing_key_panics.2.2.2.2.2.2.2.2.2.2.2.2.2.2.2.2.2.2.2.2.2.1 P0 0 progMissing stBase
     rfl rfl,
   c5_missing_key_panics.2.2.2.2.2.2.2.2.2.2.2.2.2.2.2.2.2.2.2.2.2.2.1 P0 0 stC5 progMissing
     rfl rfl rfl,
   c5_missing_key_panics.2.2.2.2.2.2.2.2.2.2.2.2.2.2.2.2.2.2.2.2.2.2.2 P0 0 stC5Out progMissing
     rfl rfl rfl⟩

/-- Counterexample to C5 as stated: the in-direction program referencing
the absent number-heap key "missing" makes the poll panic; no
`NetOpIn::Error` is surfaced to the caller. -/
theorem c5_missing_key_panics_counterexample :
    (nextNetCmdIn P0 1 stC5).1 = PollRes.panicked ∧
    isErrorYieldIn (nextNetCmdIn P0 1 stC5) = false :=
  ⟨rfl, rfl⟩

/-- When every listed dynamic-array identifier is present in the byte heap,
the size table exists, lists exactly those identifiers in order, and pairs
each with the length of its blob. -/
theorem dynSizes_some_aux (h : Heap (List Nat)) :
    ∀ l, (∀ id ∈ l, (h.get id).isSome) →
    ∃ sizes, dynSizes h l = some sizes ∧ sizes.map Prod.fst = l ∧
      ∀ pr ∈ sizes, ∃ b, h.get pr.1 = some b ∧ pr.2 = b.length := by
  intro l
  induction l with
  | nil =>
      intro _
      exact ⟨[], rfl, rfl, by intro pr hpr; cases hpr⟩
  | cons a rest ih =>
      intro hall
      rcases Option.isSome_iff_exists.mp (hall a (List.mem_cons_self a rest)) with ⟨b, hb⟩
      rcases ih (fun id hid => hall id (List.mem_cons_of_mem a hid)) with
        ⟨sizes, hds, hfst, hprs⟩
      refine ⟨(a, b.length) :: sizes, ?_, ?_, ?_⟩
      · rw [dynSizes, hb, hds]
        rfl
      · simp [hfst]
      · intro pr hpr
        rcases List.mem_cons.mp hpr with heq | hmem
        · exact ⟨b, by rw [heq]; exact hb, by rw [heq]⟩
        · exact hprs pr hmem

/-- C7: a `ConcretizeFormat` whose dynamic-array identifiers are all
present in the byte heap builds a size table pairing each identifier with
the length of the blob stored under it, stores the concretized format in
the format heap under `to_heap_id`, and changes nothing else. -/
theorem c7_concretize_format (P : ExtFuns) (prog : Program) (st : Interp)
    (args : ConcretizeFormatArgs)
    (h : prog.task.ins.get? prog.next_ins_index = some (Instruction.concretizeFormat args))
    (hall : ∀ id ∈ args.from_format.get_dynamic_arrays, (prog.bytes_heap.get id).isSome) :
    ∃ sizes prog' st',
      dynSizes prog.bytes_heap args.from_format.get_dynamic_arrays = some sizes ∧
      sizes.map Prod.fst = args.from_format.get_dynamic_arrays ∧
      (∀ pr ∈ sizes, ∃ b, prog.bytes_heap.get pr.1 = some b ∧ pr.2 = b.length) ∧
      executeNextInstruction P prog st = some (prog', st') ∧
      st' = st ∧
      prog'.format_heap = prog.format_heap.insert args.to_heap_id (args.from_format.concretize sizes) ∧
      prog'.format_heap.get args.to_heap_id = some (args.from_format.concretize sizes) ∧
      prog'.bytes_heap = prog.bytes_heap ∧ prog'.message_heap = prog.message_heap ∧
      prog'.number_heap = prog.number_heap ∧
      prog'.next_ins_index = prog.next_ins_index + 1 := by
  rcases dynSizes_some_aux prog.bytes_heap args.from_format.get_dynamic_arrays hall with
    ⟨sizes, hds, hfst, hprs⟩
  have hstep : executeNextInstruction P prog st =
      some ({ prog with
                format_heap := prog.format_heap.insert args.to_heap_id
                  (args.from_format.concretize sizes)
                next_ins_index := prog.next_ins_index + 1 }, st) := by
    unfold executeNextInstruction
    rw [h]
    simp only [executeInsBody, hds]
    rfl
  refine ⟨sizes, _, _, hds, hfst, hprs, hstep, rfl, rfl, ?_, rfl, rfl, rfl, rfl⟩
  simp [Heap.insert, Heap.get]

/-- Witness for C7 at a concrete input: concretizing a format with one
dynamic field sized by the 3-byte blob stored under "d". -/
theorem c7_concretize_format_witness :
    ∃ sizes prog' st',
      dynSizes progC7.bytes_heap formatD.get_dynamic_arrays = some sizes ∧
      sizes.map Prod.fst = formatD.get_dynamic_arrays ∧
      (∀ pr ∈ sizes, ∃ b, progC7.bytes_heap.get pr.1 = some b ∧ pr.2 = b.length) ∧
      executeNextInstruction P0 progC7 stBase = some (prog', st') ∧
      st' = stBase ∧
      prog'.format_heap = progC7.format_heap.insert "cf" (formatD.concretize sizes) ∧
      prog'.format_heap.get "cf" = some (formatD.concretize sizes) ∧
      prog'.bytes_heap = progC7.bytes_heap ∧ prog'.message_heap = progC7.message_heap ∧
      prog'.number_heap = progC7.number_heap ∧
      prog'.next_ins_index = progC7.next_ins_index + 1 :=
  c7_concretize_format P0 progC7 stBase ⟨formatD, "cf"⟩ rfl (by decide)

end Proteus

namespace Proteus.Prototype

/-- The n-th ciphertext of a run: plaintext `i` of the list is encrypted
under the nonce drawn at keystream position `enc_pos + 12 i`. -/
theorem sendAll_nth_aux (ks : List Nat → List Nat → Nat → Nat)
    (ae : List Nat → List Nat → List Nat → List Nat) :
    ∀ (ps : List (List Nat)) (c : Cipher) (i : Nat), i < ps.length →
      ∃ p, ps.get? i = some p ∧
        (sendAll ks ae c ps).1.get? i =
          some (ae c.key (nonceFrom ks c.key c.enc_seed (c.enc_pos + 12 * i)) p) := by
  intro ps
  induction ps with
  | nil => intro c i hi; cases hi
  | cons p rest ih =>
      intro c i hi
      cases i with
      | zero =>
          refine ⟨p, rfl, ?_⟩
          simp only [sendAll, Cipher.encrypt, getNonce]
          rfl
      | succ n =>
          have hn : n < rest.length := by
            simpa using Nat.lt_of_succ_lt_succ hi
          rcases ih { c with enc_pos := c.enc_pos + 12 } n hn with ⟨q, hq, hct⟩
          refine ⟨q, hq, ?_⟩
          have harg : c.enc_pos + 12 + 12 * n = c.enc_pos + 12 * (n + 1) := by omega
          simp only [sendAll, Cipher.encrypt, getNonce]
          simp only [List.get?]
          rw [hct]
          simp only []
          rw [harg]

/-- Lock-step roundtrip: if the receiver's decryption generator mirrors the
sender's encryption generator (same key, same seed, same position) and the
AEAD decrypts its own encryptions, decrypting the sent ciphertexts in order
returns exactly the plaintexts. -/
theorem recvAll_roundtrip_aux (ks : List Nat → List Nat → Nat → Nat)
    (ae : List Nat → List Nat → List Nat → List Nat)
    (ad : List Nat → List Nat → List Nat → Option (List Nat)) (key : List Nat)
    (hRT : ∀ nonce p, ad key nonce (ae key nonce p) = some p) :
    ∀ (ps : List (List Nat)) (cs cr : Cipher), cs.key = key → cr.key = key →
      cr.dec_seed = cs.enc_seed → cr.dec_pos = cs.enc_pos →
      ∃ cr', recvAll ks ad cr (sendAll ks ae cs ps).1 = some (ps, cr') := by
  intro ps
  induction ps with
  | nil => intro cs cr _ _ _ _; exact ⟨cr, rfl⟩
  | cons p rest ih =>
      intro cs cr hks hkr hseed hpos
      rcases ih { cs with enc_pos := cs.enc_pos + 12 } { cr with dec_pos := cr.dec_pos + 12 }
          hks hkr hseed (by simp only []; omega) with ⟨cr', hrec⟩
      refine ⟨cr', ?_⟩
      rw [hks, hkr, hseed, hpos] at hrec
      simp only [sendAll, recvAll, Cipher.encrypt, Cipher.decrypt, getNonce]
      rw [hks, hkr, hseed, hpos]
      rw [hRT (nonceFrom ks key cs.enc_seed cs.enc_pos) p]
      simp only []
      rw [hrec]
      rfl

/-- C8: for every key, a Sender cipher and a Receiver cipher built from it
have mirrored nonce generators (the Sender encrypts under seed A, the
Receiver decrypts under seed A), so the Receiver's n-th decryption of the
Sender's n-th encryption returns the n-th plaintext for every n, and — the
AEAD being injective in the nonce and the nonce stream free of repeats —
ciphertexts at two different positions differ even for equal plaintexts. -/
theorem c8_connected_pair (ks : List Nat → List Nat → Nat → Nat)
    (ae : List Nat → List Nat → List Nat → List Nat)
    (ad : List Nat → List Nat → List Nat → Option (List Nat))
    (key : List Nat) (ps : List (List Nat))
    (hRT : ∀ nonce p, ad key nonce (ae key nonce p) = some p)
    (hNon : ∀ i j : Nat, i ≠ j → nonceAt ks key NONCE_A i ≠ nonceAt ks key NONCE_A j)
    (hInj : ∀ n1 n2 p, n1 ≠ n2 → ae key n1 p ≠ ae key n2 p) :
    (∃ cr', recvAll ks ad (Cipher.new key CipherKind.receiver)
        (sendAll ks ae (Cipher.new key CipherKind.sender) ps).1 = some (ps, cr')) ∧
    (∀ i j, i < ps.length → j < ps.length → i ≠ j → ps.get? i = ps.get? j →
      (sendAll ks ae (Cipher.new key CipherKind.sender) ps).1.get? i ≠
        (sendAll ks ae (Cipher.new key CipherKind.sender) ps).1.get? j) := by
  constructor
  · exact recvAll_roundtrip_aux ks ae ad key hRT ps
      (Cipher.new key CipherKind.sender) (Cipher.new key CipherKind.receiver)
      rfl rfl rfl rfl
  · intro i j hi hj hij hps hcts
    rcases sendAll_nth_aux ks ae ps (Cipher.new key CipherKind.sender) i hi with ⟨p, hp, hcti⟩
    rcases sendAll_nth_aux ks ae ps (Cipher.new key CipherKind.sender) j hj with ⟨q, hq, hctj⟩
    have hpq : p = q := by
      rw [hp, hq] at hps
      exact Option.some.inj hps
    rw [hcti, hctj, hpq] at hcts
    have hcts' := Option.some.inj hcts
    have hzi : (Cipher.new key CipherKind.sender).enc_pos + 12 * i = 12 * i := by
      simp [Cipher.new]
    have hzj : (Cipher.new key CipherKind.sender).enc_pos + 12 * j = 12 * j := by
      simp [Cipher.new]
    rw [hzi, hzj] at hcts'
    exact hInj (nonceAt ks key NONCE_A i) (nonceAt ks key NONCE_A j) q (hNon i j hij) hcts'

/-- AEAD roundtrip property of the concrete nonce-prepending instance. -/
theorem ad0_roundtrip_aux : ∀ nonce p : List Nat, ad0 [0] nonce (ae0 [0] nonce p) = some p := by
  intro nonce p
  have h1 : (nonce ++ p).take nonce.length = nonce := List.take_left nonce p
  have h2 : (nonce ++ p).drop nonce.length = p := List.drop_left nonce p
  simp [ae0, ad0, h1, h2]

/-- Nonce distinctness of the identity keystream: consecutive 12-byte
nonces start at distinct first bytes. -/
theorem ks0_nonces_aux :
    ∀ i j : Nat, i ≠ j → nonceAt ks0 [0] NONCE_A i ≠ nonceAt ks0 [0] NONCE_A j := by
  intro i j hij heq
  have hh : (nonceAt ks0 [0] NONCE_A i).head? = (nonceAt ks0 [0] NONCE_A j).head? := by
    rw [heq]
  have hi : (nonceAt ks0 [0] NONCE_A i).head? = some (12 * i + 0) := rfl
  have hj : (nonceAt ks0 [0] NONCE_A j).head? = some (12 * j + 0) := rfl
  rw [hi, hj] at hh
  have := Option.some.inj hh
  omega

/-- Nonce injectivity of the concrete nonce-prepending instance. -/
theorem ae0_inj_aux : ∀ (n1 n2 p : List Nat), n1 ≠ n2 → ae0 [0] n1 p ≠ ae0 [0] n2 p := by
  intro n1 n2 p hne heq
  exact hne (List.append_cancel_right heq)

/-- Witness for C8 at concrete inputs: two equal plaintexts through a
connected sender/receiver pair round-trip, and their ciphertexts differ. -/
theorem c8_connected_pair_witness :
    (∃ cr', recvAll ks0 ad0 (Cipher.new [0] CipherKind.receiver)
        (sendAll ks0 ae0 (Cipher.new [0] CipherKind.sender) [[5], [5]]).1 =
          some ([[5], [5]], cr')) ∧
    (sendAll ks0 ae0 (Cipher.new [0] CipherKind.sender) [[5], [5]]).1.get? 0 ≠
      (sendAll ks0 ae0 (Cipher.new [0] CipherKind.sender) [[5], [5]]).1.get? 1 :=
  ⟨(c8_connected_pair ks0 ae0 ad0 [0] [[5], [5]] ad0_roundtrip_aux ks0_nonces_aux
      ae0_inj_aux).1,
   (c8_connected_pair ks0 ae0 ad0 [0] [[5], [5]] ad0_roundtrip_aux ks0_nonces_aux
      ae0_inj_aux).2 0 1 (by decide) (by decide) (by decide) rfl⟩

/-- C9: encryption is length-preserving up to the fixed 16-byte Poly1305
tag: the ciphertext (with its appended MAC) has exactly
`suggest_ciphertext_nbytes` of the plaintext's length, which is the
plaintext length plus 16. -/
theorem c9_encrypt_length (ks : List Nat → List Nat → Nat → Nat)
    (ae : List Nat → List Nat → List Nat → List Nat) (c : Cipher) (p : List Nat)
    (hLen : ∀ key nonce pt, (ae key nonce pt).length = pt.length + 16) :
    (Cipher.encrypt ks ae c p).1.length = suggest_ciphertext_nbytes p.length ∧
    suggest_ciphertext_nbytes p.length = p.length + 16 :=
  ⟨by simp [Cipher.encrypt, getNonce, hLen, suggest_ciphertext_nbytes], rfl⟩

/-- Length contract of the concrete padding instance. -/
theorem aeLen0_len_aux : ∀ key nonce pt : List Nat, (aeLen0 key nonce pt).length = pt.length + 16 := by
  intro key nonce pt
  simp [aeLen0]

/-- Witness for C9 at a concrete input: a 3-byte plaintext encrypts to 19
bytes. -/
theorem c9_encrypt_length_witness :
    (Cipher.encrypt ks0 aeLen0 (Cipher.new [0] CipherKind.sender) [1, 2, 3]).1.length =
      suggest_ciphertext_nbytes ([1, 2, 3] : List Nat).length ∧
    suggest_ciphertext_nbytes ([1, 2, 3] : List Nat).length = ([1, 2, 3] : List Nat).length + 16 :=
  c9_encrypt_length ks0 aeLen0 (Cipher.new [0] CipherKind.sender) [1, 2, 3] aeLen0_len_aux

/-- C10 (amended): with an installed cipher, `ciphertext_len` within
`[16, isize::MAX]` and at least `ciphertext_len - 16` bytes remaining,
`CryptoModule::encrypt` consumes exactly `ciphertext_len - 16` bytes and
returns Ok with exactly `ciphertext_len` ciphertext bytes; a
`ciphertext_len` below 16 yields `Err(CryptFailure)` and consumes
nothing. -/
theorem c10_crypto_module_encrypt (ks : List Nat → List Nat → Nat → Nat)
    (ae : List Nat → List Nat → List Nat → List Nat)
    (hLen : ∀ key nonce pt, (ae key nonce pt).length = pt.length + 16) :
    (∀ (m : CryptoModule) (cur : BCursor) (n : Nat), n < 16 →
       CryptoModule.encrypt ks ae m cur n =
         some (Except.error CryptoError.cryptFailure, m, cur))
    ∧ (∀ (m : CryptoModule) (c : Cipher) (cur : BCursor) (n : Nat),
       m.cipher = some c → 16 ≤ n → n ≤ isizeMax → n - 16 ≤ cur.remaining →
       ∃ ct m' cur',
         CryptoModule.encrypt ks ae m cur n = some (Except.ok ct, m', cur') ∧
         ct.length = n ∧ cur'.data = cur.data ∧ cur'.pos = cur.pos + (n - 16)) := by
  constructor
  · intro m cur n hn
    unfold CryptoModule.encrypt
    rw [if_pos (show n < suggest_ciphertext_nbytes 0 by
      simpa [suggest_ciphertext_nbytes] using hn)]
  · intro m c cur n hc h16 hmax hrem
    have hlt : ¬ (n < suggest_ciphertext_nbytes 0) := by
      simp only [suggest_ciphertext_nbytes]
      omega
    have hdet : determine_plaintext_size n = some (some (n - 16)) := by
      unfold determine_plaintext_size
      rw [if_pos hmax, if_pos h16]
    have havail : ¬ (cur.remaining < n - 16) := by omega
    have hstep : CryptoModule.encrypt ks ae m cur n =
        some (Except.ok (ae c.key (nonceFrom ks c.key c.enc_seed c.enc_pos)
                ((cur.data.drop cur.pos).take (n - 16))),
              { m with cipher := some { c with enc_pos := c.enc_pos + 12 } },
              { cur with pos := cur.pos + (n - 16) }) := by
      unfold CryptoModule.encrypt
      rw [if_neg hlt, hdet]
      dsimp only
      rw [if_neg havail, hc]
      rfl
    refine ⟨_, _, _, hstep, ?_, rfl, rfl⟩
    rw [hLen]
    have : ((cur.data.drop cur.pos).take (n - 16)).length = n - 16 := by
      simp only [List.length_take, List.length_drop]
      unfold BCursor.remaining at hrem
      omega
    rw [this]
    omega

/-- Witness for C10 at concrete inputs: a short request errors without
consuming, and an 18-byte request on a 5-byte cursor with an installed
cipher consumes 2 bytes and returns 18 ciphertext bytes. -/
theorem c10_crypto_module_encrypt_witness :
    CryptoModule.encrypt ks0 aeLen0 cmNone cur5 10 =
      some (Except.error CryptoError.cryptFailure, cmNone, cur5)
    ∧ ∃ ct m' cur',
        CryptoModule.encrypt ks0 aeLen0 cm0 cur5 18 = some (Except.ok ct, m', cur') ∧
        ct.length = 18 ∧ cur'.data = cur5.data ∧ cur'.pos = cur5.pos + (18 - 16) :=
  ⟨(c10_crypto_module_encrypt ks0 aeLen0 aeLen0_len_aux).1 cmNone cur5 10 (by decide),
   (c10_crypto_module_encrypt ks0 aeLen0 aeLen0_len_aux).2 cm0 (Cipher.new [0] CipherKind.sender)
     cur5 18 rfl (by decide) (by decide) (by decide)⟩

/-- Counterexample to C10 as stated: before any handshake (`cipher` not
installed), a call with `ciphertext_len = 17` and a cursor holding enough
bytes panics instead of returning Ok. -/
theorem c10_crypto_module_encrypt_counterexample :
    CryptoModule.encrypt ks0 aeLen0 cmNone cur5 17 = none ∧
    16 ≤ 17 ∧ 17 - 16 ≤ cur5.remaining :=
  ⟨rfl, by decide, by decide⟩

end Proteus.Prototype
